import Mathlib

/- Verification development for the secwebscan concurrent scan scheduler and
   multi-source result-reconciliation engine.

   Python values are modelled by the inductive type PyVal, Python dicts by
   association lists (insertion-ordered, unique keys, in-place value update),
   and Python strings by Lean String values.  The string helpers below
   re-implement the exact Python primitives used by the code (str.strip,
   str.split, substring containment, str.lower, str.startswith, sorted,
   "sep".join) by structural recursion over the character list, so that every
   definition evaluates inside the kernel. -/

/-- Python whitespace characters recognised by str.strip() with no argument. -/
def pySpace (c : Char) : Bool :=
  c = ' ' || c = '\t' || c = '\n' || c = '\r' || c = Char.ofNat 11 || c = Char.ofNat 12

/-- Characters of a string with leading and trailing whitespace removed. -/
def stripCh (l : List Char) : List Char :=
  ((l.dropWhile pySpace).reverse.dropWhile pySpace).reverse

/-- Python str.strip(). -/
def pyStrip (s : String) : String := ⟨stripCh s.data⟩

/-- Python str.strip(c) for a one-character argument: remove the character
    from both ends, repeatedly. -/
def stripOn (c : Char) (s : String) : String :=
  ⟨((s.data.dropWhile (· = c)).reverse.dropWhile (· = c)).reverse⟩

/-- Split a character list at every occurrence of the separator
    (Python str.split(sep) semantics: an empty input yields one empty part,
    adjacent separators yield empty parts). -/
def splitCh (c : Char) : List Char → List (List Char)
  | [] => [[]]
  | x :: xs =>
    if x = c then [] :: splitCh c xs
    else
      match splitCh c xs with
      | [] => [[x]]
      | g :: gs => (x :: g) :: gs

/-- Python str.split(sep) for a one-character separator. -/
def pySplit (s : String) (c : Char) : List String := (splitCh c s.data).map String.mk

/-- Python str.splitlines() for newline-separated text.  The modelled data
    uses the newline character as its only line separator; a trailing newline
    produces a final empty part here where Python produces none, but every
    caller in the code filters out blank lines before use, so the two agree. -/
def pyLines (s : String) : List String := pySplit s '\n'

/-- Does the second list occur as a prefix of the first? -/
def begMatch : List Char → List Char → Bool
  | _, [] => true
  | [], _ :: _ => false
  | h :: hs, n :: ns => h = n && begMatch hs ns

/-- Does the needle occur as a contiguous run inside the list? -/
def subAt (n : List Char) : List Char → Bool
  | [] => begMatch [] n
  | c :: t => begMatch (c :: t) n || subAt n t

/-- Python membership test for strings: needle in hay. -/
def hasSub (hay needle : String) : Bool := subAt needle.data hay.data

/-- Python str.startswith. -/
def begWith (s p : String) : Bool := begMatch s.data p.data

/-- Lower-case one ASCII character (Python str.lower on the modelled data). -/
def lowCh (c : Char) : Char :=
  if 'A'.toNat ≤ c.toNat && c.toNat ≤ 'Z'.toNat then Char.ofNat (c.toNat + 32) else c

/-- Python str.lower(). -/
def pyLower (s : String) : String := ⟨s.data.map lowCh⟩

/-- Accumulator for whitespace-separated words (Python str.split() with no
    argument: runs of whitespace separate words, no empty words). -/
def wordsAux : List Char → List Char → List (List Char)
  | cur, [] => if cur = [] then [] else [cur.reverse]
  | cur, c :: t =>
    if pySpace c then
      if cur = [] then wordsAux [] t else cur.reverse :: wordsAux [] t
    else wordsAux (c :: cur) t

/-- Python str.split() with no argument. -/
def pyWords (s : String) : List String := (wordsAux [] s.data).map String.mk

/-- Python "sep".join(parts). -/
def joinSep (sep : String) : List String → String
  | [] => ""
  | [x] => x
  | x :: y :: t => x ++ sep ++ joinSep sep (y :: t)

/-- Code-point comparison of character lists, the order Python uses to
    compare strings. -/
def lexLe : List Char → List Char → Bool
  | [], _ => true
  | _ :: _, [] => false
  | a :: as, b :: bs =>
    if a.toNat < b.toNat then true
    else if b.toNat < a.toNat then false
    else lexLe as bs

/-- Python string comparison a <= b. -/
def strLe (a b : String) : Bool := lexLe a.data b.data

/-- Python sorted() on a list of strings. -/
def pySorted (l : List String) : List String :=
  List.insertionSort (fun a b => strLe a b = true) l

/-- First-occurrence deduplication with an accumulator of already-seen
    elements (Python dict.fromkeys keeps the first occurrence of each key,
    in order). -/
def dedupF (seen : List String) : List String → List String
  | [] => []
  | x :: xs => if x ∈ seen then dedupF seen xs else x :: dedupF (x :: seen) xs

/-- Python list(dict.fromkeys(l)): order-preserving deduplication. -/
def dedupFirst (l : List String) : List String := dedupF [] l

/-- A Python value as it appears in a canonical entry: a string, an int, or
    None.  These are the only value shapes the normalizers produce. -/
inductive PyVal where
  | VStr : String → PyVal
  | VInt : Int → PyVal
  | VNone : PyVal
deriving DecidableEq

open PyVal

/-- Decimal digits of a natural number, fuel-driven so that the kernel can
    evaluate it. -/
def natChars : Nat → Nat → List Char
  | 0, _ => []
  | fuel + 1, n =>
    if n < 10 then [Char.ofNat (48 + n)]
    else natChars fuel (n / 10) ++ [Char.ofNat (48 + n % 10)]

/-- Decimal rendering of a natural number. -/
def natStr (n : Nat) : String := ⟨natChars (n + 1) n⟩

/-- Python str() of an int. -/
def intStr (i : Int) : String := if i < 0 then "-" ++ natStr i.natAbs else natStr i.natAbs

/-- Python str() of a value. -/
def pyStr : PyVal → String
  | VStr s => s
  | VInt i => intStr i
  | VNone => "None"

/-- A canonical entry: a Python dict modelled as an insertion-ordered
    association list with unique keys. -/
abbrev Entry := List (String × PyVal)

/-- Python entry.get(k, d). -/
def getD : Entry → String → PyVal → PyVal
  | [], _, d => d
  | (k', v) :: e, k, d => if k' = k then v else getD e k d

/-- Python membership test k in entry. -/
def hasKey : Entry → String → Bool
  | [], _ => false
  | (k', _) :: e, k => k' = k || hasKey e k

/-- Python dict assignment entry[k] = v: replace the value in place when the
    key is present (keeping its position), otherwise append the new pair. -/
def setE : Entry → String → PyVal → Entry
  | [], k, v => [(k, v)]
  | (k', v') :: e, k, v => if k' = k then (k, v) :: e else (k', v') :: setE e k v

namespace Nmap

/-- Translated from src/plugins/nmap.py get_important_fields(). -/
def get_important_fields : List String :=
  ["port", "protocol", "state", "reason", "service_name", "product", "version",
   "extra", "cpe", "script_output"]

/-- Translated from src/plugins/nmap.py merge_sources: the union of the two
    "+"-separated label sets, sorted and re-joined.  Python builds
    set(a.split("+")) | set(b.split("+")) and sorts it; sorting a
    duplicate-free collection depends only on membership, so deduplicating the
    concatenation of the two split lists yields the identical result. -/
def merge_sources (a b : String) : String :=
  joinSep "+" (pySorted ((pySplit a '+' ++ pySplit b '+').dedup))

/-- Keys scanned for the certificate block of format_script_output. -/
def certKeys : List String :=
  ["Subject:", "Subject Alternative Name", "Issuer:", "Public Key",
   "Signature Algorithm", "Not valid", "MD5:", "SHA-1:"]

/-- One iteration of the TLS-section loop in format_script_output: a line
    naming a TLS version contributes the version stripped of colons on its own
    paragraph, a cipher line contributes a bullet, anything else nothing.  The
    current_version variable of the Python loop is assigned and used within
    the same iteration, so the loop is a filterMap. -/
def tlsLine (line : String) : Option String :=
  if hasSub line "TLSv1." || hasSub line "TLSv1.3" then
    some ("\n" ++ stripOn ':' (pyStrip line))
  else if hasSub line "TLS_" || hasSub line "TLS_AKE_" then
    some ("- " ++ pyStrip line)
  else none

/-- Render one CVE with its multiplicity, as the counting comprehension in
    format_script_output does. -/
def cveFmt (cve : String) (count : Nat) : String :=
  if count > 1 then cve ++ " (×" ++ natStr count ++ ")" else cve

/-- Translated from src/plugins/nmap.py format_script_output. -/
def format_script_output (raw : String) : String :=
  let raw := pyStrip raw
  if raw = "-" || raw = "" then "-"
  else
    let lines := ((pyLines raw).map pyStrip).filter (fun l => l ≠ "" && l ≠ "-")
    let unique_lines := dedupFirst lines
    let s1 : List String :=
      if unique_lines.any (fun l => hasSub l "TLSv1." || hasSub l "TLSv1.3") then
        let tls_lines := unique_lines.filterMap tlsLine
        if tls_lines ≠ [] then ["[TLS Cipher Support]\n" ++ joinSep "\n" tls_lines]
        else []
      else []
    let s2 : List String :=
      if unique_lines.any (fun l => hasSub l "Subject:" || hasSub l "Valid:") then
        [joinSep "\n" ("[Cert Info]" ::
          certKeys.flatMap (fun key => unique_lines.filter (fun l => hasSub l key)))]
      else []
    let s3 : List String :=
      if unique_lines.any (fun l => hasSub l "FTP" || hasSub l "Anonymous FTP login allowed") then
        [joinSep "\n" ("[FTP Info]" :: unique_lines.filter (fun l => hasSub l "FTP"))]
      else []
    let s4 : List String :=
      if unique_lines.any (fun l => hasSub l "SSH") then
        [joinSep "\n" ("[SSH Info]" :: unique_lines.filter (fun l => hasSub l "SSH"))]
      else []
    let s5 : List String :=
      if unique_lines.any (fun l => hasSub l "/nice ports" || hasSub l "FourOhFourRequest") then
        [joinSep "\n" ("[HTTP Response Patterns]" ::
          (unique_lines.filter (fun l =>
            ["FourOhFourRequest", "Request", "OPTIONS"].any (fun k => hasSub l k))).map
            (fun l => "- " ++ l))]
      else []
    let s6 : List String :=
      if unique_lines.any (fun l => hasSub l "CVE-" || hasSub (pyLower l) "vulnerab") then
        let vuln_lines := unique_lines.filter
          (fun l => hasSub l "CVE-" || hasSub (pyLower l) "vulnerab")
        let cves := (vuln_lines.flatMap pyWords).filter (fun w => begWith w "CVE-")
        let counted := pySorted ((cves.dedup).map (fun c => cveFmt c (cves.count c)))
        ["[Vulnerabilities]\n" ++ joinSep "\n" (counted ++ vuln_lines)]
      else []
    let sections := s1 ++ s2 ++ s3 ++ s4 ++ s5 ++ s6
    if sections ≠ [] then pyStrip (joinSep "\n\n" sections)
    else joinSep "\n" unique_lines

/-- The value set that merge_entries.is_empty treats as carrying no
    information, in source order. -/
def is_empty_vals : List String := ["-", "", "null", "None", "0"]

/-- Translated from the nested is_empty of src/plugins/nmap.py merge_entries. -/
def is_empty (e : Entry) : Bool :=
  get_important_fields.all
    (fun k => is_empty_vals.contains (pyStrip (pyStr (getD e k (VStr "-")))))

/-- The empty-equivalence value set of the identical-fields check inside
    merge_entries, in source order. -/
def empty4 : List String := ["-", "", "None", "null"]

/-- The identical-fields comparison of merge_entries: for every important
    field, either both stringified stripped values lie in the
    empty-equivalence set, or they are equal. -/
def identical (entry existing : Entry) : Bool :=
  get_important_fields.all (fun k =>
    let v1 := pyStrip (pyStr (getD entry k (VStr "-")))
    let v2 := pyStrip (pyStr (getD existing k (VStr "-")))
    (empty4.contains v1 && empty4.contains v2) || v1 == v2)

/-- A merge key: the tuple Python builds from a subset of entry values,
    possibly augmented by a source label.  The base key has three components,
    an augmented key four, so the two shapes never collide. -/
abbrev MKey := List PyVal

/-- The base merge key (entry.get("port"), entry.get("protocol"),
    entry.get("service_name")). -/
def keyOf (e : Entry) : MKey :=
  [getD e "port" VNone, getD e "protocol" VNone, getD e "service_name" VNone]

/-- The merged accumulator: a Python dict from keys to entries, modelled as an
    insertion-ordered association list with unique keys. -/
abbrev Merged := List (MKey × Entry)

/-- Python merged-dict lookup. -/
def lookupK : Merged → MKey → Option Entry
  | [], _ => none
  | (k', v) :: m, k => if k' = k then some v else lookupK m k

/-- Python merged-dict assignment merged[k] = v: in-place replacement when the
    key is present, append otherwise. -/
def updateK : Merged → MKey → Entry → Merged
  | [], k, v => [(k, v)]
  | (k', v') :: m, k, v => if k' = k then (k, v) :: m else (k', v') :: updateK m k v

/-- Read the source label of an entry as a string.  Python indexes
    entry["source"] directly; every entry the normalizers produce carries a
    string source, and a missing or non-string value would raise, which is
    outside the behaviour under verification. -/
def srcStr (e : Entry) : String := pyStr (getD e "source" VNone)

/-- The combined script text "\n\n".join(filter(None, set([ex, en]))).
    CPython iterates the two-element string set in a hash-seed-dependent
    order; the model fixes the insertion order [ex, en].  Every theorem below
    that exercises this branch does so on inputs where both orders produce the
    same final string. -/
def combineScripts (ex en : String) : String :=
  joinSep "\n\n" ((if ex = en then [ex] else [ex, en]).filter (fun s => s ≠ ""))

/-- The existing entry with its source label replaced by the merged label set
    (line 256 of merge_entries). -/
def srcMerged (existing entry : Entry) : Entry :=
  setE existing "source" (VStr (merge_sources (srcStr existing) (srcStr entry)))

/-- The entry the identical branch of merge_entries stores back: the existing
    entry with its source label set to the merged label set and, when both
    entries carry a script_output key with differing raw values, the
    re-normalized concatenation of the two script texts (lines 255-272). -/
def identMerge (existing entry : Entry) : Entry :=
  if hasKey entry "script_output" && hasKey (srcMerged existing entry) "script_output"
      && !(getD entry "script_output" VNone
            == getD (srcMerged existing entry) "script_output" VNone) then
    setE (srcMerged existing entry) "script_output"
      (VStr (format_script_output
        (combineScripts (pyStr (getD (srcMerged existing entry) "script_output" VNone))
          (pyStr (getD entry "script_output" VNone)))))
  else srcMerged existing entry

/-- One iteration of the merge_entries main loop on a single (non-empty)
    entry, translated from src/plugins/nmap.py lines 237 to 277. -/
def mergeStep (merged : Merged) (entry : Entry) : Merged :=
  match lookupK merged (keyOf entry) with
  | none => updateK merged (keyOf entry) entry
  | some existing =>
    if identical entry existing then
      updateK merged (keyOf entry) (identMerge existing entry)
    else updateK merged (keyOf entry ++ [getD entry "source" VNone]) entry

/-- Does processing this entry fire the script_output concatenation branch of
    merge_entries?  Stated on the looked-up existing entry; the source update
    performed just before the check does not touch the script_output key. -/
def concatFires (merged : Merged) (entry : Entry) : Bool :=
  match lookupK merged (keyOf entry) with
  | none => false
  | some existing =>
    identical entry existing &&
      (hasKey entry "script_output" && hasKey existing "script_output"
        && !(getD entry "script_output" VNone == getD existing "script_output" VNone))

/-- True when folding the given entries from the given accumulator never
    fires the script_output concatenation branch. -/
def runConcatFree : Merged → List Entry → Bool
  | _, [] => true
  | m, e :: es => !concatFires m e && runConcatFree (mergeStep m e) es

/-- The flattened, emptiness-filtered entry stream merge_entries folds over. -/
def flatFiltered (entry_lists : List (List Entry)) : List Entry :=
  entry_lists.flatMap (fun entries => entries.filter (fun e => !is_empty e))

/-- Translated from src/plugins/nmap.py merge_entries: drop empty entries,
    fold every remaining entry through the merged dict, return the values in
    insertion order. -/
def merge_entries (entry_lists : List (List Entry)) : List Entry :=
  ((entry_lists.flatMap (fun entries => entries.filter (fun e => !is_empty e))).foldl
    mergeStep []).map Prod.snd

/-- Translated from src/plugins/nmap.py should_merge_entries(). -/
def should_merge_entries : Bool := true

/-- Shape invariant of the merged accumulator, stated for a suffix of stored
    pairs relative to the prefix already in place: every stored pair carries a
    key fresh with respect to its prefix and a non-empty entry, and is either
    a base pair (stored under the three-component key computed from its own
    entry) or a conflict pair (stored under its augmented four-component key,
    with the base pair it conflicts with already present in the prefix). -/
def InvFrom (seen : Merged) : Merged → Prop
  | [] => True
  | (k, e) :: rest =>
    lookupK seen k = none ∧
    is_empty e = false ∧
    (k = keyOf e ∨
      (k = keyOf e ++ [getD e "source" VNone] ∧
        ∃ b, lookupK seen (keyOf e) = some b ∧ identical e b = false)) ∧
    InvFrom (seen ++ [(k, e)]) rest

/-- The accumulator invariant for a complete merged dict. -/
def Inv (m : Merged) : Prop := InvFrom [] m

end Nmap

namespace Collector

/-- The value set of src/core/collector.py is_meaningful_entry, in source
    order. -/
def meaningful_vals : List String := ["-", "", "None", "null", "0"]

/-- Translated from src/core/collector.py is_meaningful_entry (lines 67-71). -/
def is_meaningful_entry (entry : Entry) (important_fields : List String) : Bool :=
  !(important_fields.all
    (fun k => meaningful_vals.contains (pyStrip (pyStr (getD entry k (PyVal.VStr "-"))))))

/-- Target chosen by the first loop over merged_data in process_temp_files
    (lines 127-141), via source_map with keys IP, Http, Https. -/
def firstTarget (ip domain : String) (data : Entry) : String :=
  let source := pyStr (getD data "source" (PyVal.VStr "unknown"))
  if hasSub source "+" then
    if hasSub source "Http" || hasSub source "Https" then domain else ip
  else
    if source = "IP" then ip
    else if source = "Http" then domain
    else if source = "Https" then domain
    else "unknown"

/-- Target chosen by the second loop over merged_data (lines 143-155). -/
def secondTarget (ip domain : String) (data : Entry) : String :=
  let source := pyStr (getD data "source" (PyVal.VStr "unknown"))
  if source = "IP" then ip
  else if source = "Domain" || source = "Both" then domain
  else "unknown"

/-- Results built by the merged branch of process_temp_files: two loops over
    the same merged list, each setting the target field and then filtering on
    meaningfulness.  In Python the two appended references alias the same
    mutated dict; the model records each appended element with the target its
    loop computed, which is faithful for the membership and cardinality
    properties stated below. -/
def mergedResults (merged_data : List Entry) (ip domain : String)
    (fields : List String) : List Entry :=
  (merged_data.filterMap (fun data =>
    if fields.isEmpty || is_meaningful_entry
        (setE data "target" (PyVal.VStr (firstTarget ip domain data))) fields
    then some (setE data "target" (PyVal.VStr (firstTarget ip domain data)))
    else none)) ++
  (merged_data.filterMap (fun data =>
    if fields.isEmpty || is_meaningful_entry
        (setE data "target" (PyVal.VStr (secondTarget ip domain data))) fields
    then some (setE data "target" (PyVal.VStr (secondTarget ip domain data)))
    else none))

/-- Results built by the per-file branch of process_temp_files
    (lines 156-166); each file carries its source label and parsed entries. -/
def fileResults (files : List (String × List Entry)) (ip domain : String)
    (fields : List String) : List Entry :=
  files.flatMap (fun f =>
    (f.2).filterMap (fun entry =>
      if fields.isEmpty || is_meaningful_entry
          (setE entry "target" (PyVal.VStr (if f.1 = "IP" then ip else domain))) fields
      then some (setE entry "target" (PyVal.VStr (if f.1 = "IP" then ip else domain)))
      else none))

/-- Did this parse invocation raise? -/
def isErr : Except String (List Entry) → Bool
  | .error _ => true
  | .ok _ => false

/-- Entries of a successful parse. -/
def okEntries : Except String (List Entry) → List Entry
  | .error _ => []
  | .ok l => l

/-- Per-plugin stage of process_temp_files (lines 105-170): all of one
    plugin's artifacts are parsed inside a single try block, so one raising
    parse discards every result of the plugin; otherwise the merged branch
    runs when the plugin exposes merge_entries and more than one file was
    collected (nmap is the only such plugin, so its merge_entries is the one
    invoked), and the per-file branch otherwise.  Each file is a pair of its
    source label and its parse outcome. -/
def pluginContribution (hasMergeFn : Bool)
    (files : List (String × Except String (List Entry)))
    (ip domain : String) (fields : List String) : List Entry :=
  if files.any (fun f => isErr f.2) then []
  else if hasMergeFn && files.length > 1 then
    mergedResults (Nmap.merge_entries (files.map (fun f => okEntries f.2))) ip domain fields
  else fileResults (files.map (fun f => (f.1, okEntries f.2))) ip domain fields

/-- A plugin as process_temp_files sees it: whether it exposes merge_entries,
    its files, and its important fields. -/
structure PluginData where
  hasMergeFn : Bool
  files : List (String × Except String (List Entry))
  fields : List String

/-- Results of the whole per-plugin loop of process_temp_files: plugin
    contributions concatenate in grouping order. -/
def runPlugins (ps : List PluginData) (ip domain : String) : List Entry :=
  ps.flatMap (fun p => pluginContribution p.hasMergeFn p.files ip domain p.fields)

end Collector

namespace Invoke

/-- Observable outcome of one external tool invocation: the exit code and
    captured stderr of the child process, whether the output artifact file
    exists afterwards, its content, and whether that content (after nikto's
    escape fixing) parses as JSON. -/
structure ToolRun where
  returncode : Int
  stderr : String
  fileExists : Bool
  content : String
  contentParses : Bool

/-- Translated from src/plugins/nmap.py run_nmap lines 42-45: only the exit
    code is inspected; the artifact path is returned unconditionally on exit
    code zero, with no check that the file exists or is non-empty. -/
def run_nmap (r : ToolRun) (output_path : String) : Except String String :=
  if r.returncode ≠ 0 then .error ("Nmap завершился с ошибкой: " ++ pyStrip r.stderr)
  else .ok output_path

/-- Translated from src/plugins/nikto.py run_nikto lines 60-82. -/
def run_nikto (r : ToolRun) (output_path : String) : Except String String :=
  if r.returncode ≠ 0 then .error ("Nikto завершился с ошибкой: " ++ pyStrip r.stderr)
  else if !r.fileExists then .error "Nikto не создал JSON-файл"
  else if pyStrip r.content = "" then .error "Nikto JSON-файл пустой (0 байт)"
  else if !r.contentParses then .error "Nikto вернул некорректный JSON"
  else .ok output_path

/-- Translated from src/core/plugin_runner.py run_tool lines 130-136: for an
    xml or json parser type the function logs success and returns as soon as
    the exit code is zero, never checking the output artifact. -/
def run_tool_declares_success (r : ToolRun) : Bool := r.returncode == 0

/-- asyncio.gather without return_exceptions, as src/plugins/nmap.py line 407
    uses it: one raised task exception propagates out of gather and every
    sibling result is discarded.  The model propagates the first error in
    list order. -/
def gatherStrict : List (Except String String) → Except String (List String)
  | [] => .ok []
  | .error e :: _ => .error e
  | .ok p :: rest => (gatherStrict rest).map (fun l => p :: l)

/-- The artifact records nmap's scan returns (lines 407-411): the gathered
    paths zipped with the source labels, built only when gather succeeds. -/
def nmapScanRecords (results : List (Except String String)) (sources : List String) :
    Except String (List (String × String × String)) :=
  (gatherStrict results).map
    (fun paths => (paths.zip sources).map (fun pr => ("nmap", pr.1, pr.2)))

/-- The artifact records nikto's scan returns (lines 167-176):
    asyncio.gather with return_exceptions=True followed by the loop that logs
    exceptions and keeps the successes. -/
def niktoScanRecords : List (Except String String) → List String →
    List (String × String × String)
  | [], _ => []
  | _, [] => []
  | .error _ :: rs, _ :: ss => niktoScanRecords rs ss
  | .ok p :: rs, s :: ss => ("nikto", p, s) :: niktoScanRecords rs ss

end Invoke

namespace Nuclei

/-- One output record of nuclei's parse.  The value json.loads decodes from
    each line is kept abstract as J. -/
structure Record (J : Type) where
  target : String
  module : String
  severity : String
  data : List J
  created_at : String
deriving DecidableEq

/-- The entries comprehension of nuclei's parse: decode each line in order
    with json.loads; the first decode failure aborts the whole comprehension
    (the exception propagates to the surrounding try block). -/
def decodeAll {J : Type} (loads : String → Option J) : List String → Option (List J)
  | [] => some []
  | l :: ls =>
    match loads l with
    | none => none
    | some v =>
      match decodeAll loads ls with
      | none => none
      | some vs => some (v :: vs)

/-- Translated from src/plugins/nuclei.py parse (lines 21-43): every
    non-blank line of the artifact is decoded with json.loads inside a try
    block, and any decode failure raises RuntimeError for the whole artifact;
    when decoded entries exist, one record is produced carrying the
    module-global TARGET and the value of datetime.now() at call time.
    json.loads is a fixed deterministic library function, passed as the
    explicit parameter loads with none modelling a raising decode; the impure
    inputs are the explicit parameters target and now.  The missing-file
    branch (FileNotFoundError) is upstream of the modelled content
    boundary. -/
def parse {J : Type} (loads : String → Option J) (content_lines : List String)
    (target now : String) : Except String (List (Record J)) :=
  match decodeAll loads (content_lines.filter (fun l => pyStrip l ≠ "")) with
  | none => .error "Ошибка при парсинге JSON"
  | some entries =>
    if entries.isEmpty then .ok []
    else .ok [⟨target, "nuclei", "high", entries, now⟩]

/-- A record with its timestamp erased, for stating time-independence of all
    other fields. -/
def eraseStamp {J : Type} (r : Record J) : Record J :=
  ⟨r.target, r.module, r.severity, r.data, ""⟩

/-- The json.loads behaviour on the concrete artifact lines of the theorems
    below, decoded values kept as their source text: the empty JSON array is
    the one line that decodes, every other line fails.  This matches CPython
    json.loads on exactly the lines used: it succeeds on the empty array and
    raises on the bare letter x. -/
def jsonLoadsAt : String → Option String :=
  fun s => if s = "[]" then some s else none

end Nuclei

namespace Xml

/-- An ElementTree element: tag, attributes, text, children.  Missing text is
    modelled as the empty string, matching findtext's behaviour of returning
    the empty string for an element without text. -/
inductive El where
  | node : String → List (String × String) → String → List El → El

/-- Tag of an element. -/
def tag : El → String
  | .node t _ _ _ => t

/-- Attribute list of an element. -/
def attrs : El → List (String × String)
  | .node _ a _ _ => a

/-- Text of an element. -/
def text : El → String
  | .node _ _ tx _ => tx

/-- Children of an element. -/
def children : El → List El
  | .node _ _ _ c => c

/-- ElementTree element.find(t): the first child with the given tag. -/
def findEl (e : El) (t : String) : Option El :=
  (children e).find? (fun c => tag c == t)

/-- ElementTree element.findall(t): all children with the given tag. -/
def findAll (e : El) (t : String) : List El :=
  (children e).filter (fun c => tag c == t)

/-- ElementTree element.attrib.get(k, d). -/
def attrD (e : El) (k d : String) : String :=
  match (attrs e).find? (fun p => p.1 == k) with
  | some p => p.2
  | none => d

/-- ElementTree element.findtext(t, default=d). -/
def findText (e : El) (t d : String) : String :=
  match findEl e t with
  | some c => text c
  | none => d

end Xml

/-- Accumulate the value of a digit string; none when a non-digit appears or
    the string is empty (Python int() raises there). -/
def digitsAux : Option Nat → List Char → Option Nat
  | acc, [] => acc
  | acc, c :: t =>
    if 48 ≤ c.toNat && c.toNat ≤ 57 then
      digitsAux (some ((acc.getD 0) * 10 + (c.toNat - 48))) t
    else none

/-- Python int(s) on the strings occurring in nmap XML: optional surrounding
    whitespace, an optional sign, then decimal digits; anything else raises
    (modelled as none). -/
def pyInt (s : String) : Option Int :=
  match stripCh s.data with
  | '-' :: rest => (digitsAux none rest).map (fun n => -(n : Int))
  | '+' :: rest => (digitsAux none rest).map (fun n => (n : Int))
  | t => (digitsAux none t).map (fun n => (n : Int))

namespace Nmap

/-- String attribute of an optional element, with the dash default used
    throughout parse. -/
def optAttr (el : Option Xml.El) (k : String) : String :=
  match el with
  | some e => Xml.attrD e k "-"
  | none => "-"

/-- One port element of the nmap XML turned into a data dict, translated from
    src/plugins/nmap.py parse lines 144-198.  classify is the
    classify_severity collaborator.  Modelled from the spec: classify_severity
    lives in core/severity.py, which is not under src/; section 4.5 specifies
    it as a deterministic pure function of the entry attributes, so it is
    passed as an explicit function parameter.  A failing int() conversion of
    portid raises, which parse turns into a RuntimeError for the whole
    artifact. -/
def parsePort (classify : Entry → String) (source_label : String)
    (port : Xml.El) : Except String Entry :=
  let state_el := Xml.findEl port "state"
  let service_el := Xml.findEl port "service"
  let joined := joinSep "; " ((Xml.findAll port "script").map (fun s => Xml.attrD s "output" ""))
  let raw_output := if joined = "" then "-" else joined
  match pyInt (Xml.attrD port "portid" "0") with
  | none => .error "Ошибка при парсинге XML файла"
  | some n =>
    let data : Entry :=
      [("port", PyVal.VInt n),
       ("protocol", PyVal.VStr (Xml.attrD port "protocol" "-")),
       ("state", PyVal.VStr (optAttr state_el "state")),
       ("reason", PyVal.VStr (optAttr state_el "reason")),
       ("service_name", PyVal.VStr (optAttr service_el "name")),
       ("product", PyVal.VStr (optAttr service_el "product")),
       ("version", PyVal.VStr (optAttr service_el "version")),
       ("extra", PyVal.VStr (optAttr service_el "extrainfo")),
       ("cpe", PyVal.VStr (match service_el with
         | some e => Xml.findText e "cpe" "-"
         | none => "-")),
       ("script_output", PyVal.VStr (format_script_output raw_output)),
       ("source", PyVal.VStr source_label)]
    .ok (data ++ [("severity", PyVal.VStr (classify data))])

/-- Translated from src/plugins/nmap.py parse lines 135-203: the root's first
    host child is located, then its first ports child, and every port element
    below it becomes one entry; hosts after the first are never visited.  The
    XML file has already been parsed into the element tree root (ET.parse is
    upstream of the modelled boundary). -/
def parse (classify : Entry → String) (root : Xml.El) (source_label : String) :
    Except String (List Entry) :=
  let host := Xml.findEl root "host"
  let ports := match host with
    | some h => Xml.findEl h "ports"
    | none => none
  match ports with
  | none => .ok []
  | some ps => (Xml.findAll ps "port").mapM (parsePort classify source_label)

end Nmap

/-- Build an nmap-shaped entry in the field order parse() produces. -/
def mkNE (port : Int) (protocol state reason service product version extra cpe scr source : String) : Entry :=
  [("port", PyVal.VInt port), ("protocol", PyVal.VStr protocol),
   ("state", PyVal.VStr state), ("reason", PyVal.VStr reason),
   ("service_name", PyVal.VStr service), ("product", PyVal.VStr product),
   ("version", PyVal.VStr version), ("extra", PyVal.VStr extra),
   ("cpe", PyVal.VStr cpe), ("script_output", PyVal.VStr scr),
   ("source", PyVal.VStr source), ("severity", PyVal.VStr "info")]

section EntryLemmas

open PyVal

theorem getD_setE_eq (e : Entry) (k : String) (v d : PyVal) :
    getD (setE e k v) k d = v := by
  induction e with
  | nil => simp [setE, getD]
  | cons p e ih =>
    by_cases h : p.1 = k
    · simp [setE, h, getD]
    · simp [setE, h, getD, ih]

theorem getD_setE_ne (e : Entry) (k k' : String) (v d : PyVal) (h : k ≠ k') :
    getD (setE e k v) k' d = getD e k' d := by
  induction e with
  | nil => simp [setE, getD, h]
  | cons p e ih =>
    by_cases hp : p.1 = k
    · simp [setE, hp, getD, h]
    · simp [setE, hp, getD, ih]

theorem hasKey_setE_ne (e : Entry) (k k' : String) (v : PyVal) (h : k ≠ k') :
    hasKey (setE e k v) k' = hasKey e k' := by
  induction e with
  | nil => simp [setE, hasKey, h]
  | cons p e ih =>
    by_cases hp : p.1 = k
    · simp [setE, hp, hasKey, h]
    · simp [setE, hp, hasKey, ih]

theorem setE_setE_same (e : Entry) (k : String) (v w : PyVal) :
    setE (setE e k v) k w = setE e k w := by
  induction e with
  | nil => simp [setE]
  | cons p e ih =>
    by_cases hp : p.1 = k
    · simp [setE, hp]
    · simp [setE, hp, ih]

end EntryLemmas

section NmapMergeLemmas

open PyVal

theorem keyOf_setE_source (e : Entry) (v : PyVal) :
    Nmap.keyOf (setE e "source" v) = Nmap.keyOf e := by
  unfold Nmap.keyOf
  rw [getD_setE_ne e "source" "port" v VNone (by decide),
    getD_setE_ne e "source" "protocol" v VNone (by decide),
    getD_setE_ne e "source" "service_name" v VNone (by decide)]

theorem all_getD_setE_of_not_mem (fields : List String) (e : Entry) (k : String)
    (v : PyVal) (p : PyVal → Bool) (h : k ∉ fields) :
    (fields.all fun f => p (getD (setE e k v) f (VStr "-"))) =
      (fields.all fun f => p (getD e f (VStr "-"))) := by
  induction fields with
  | nil => rfl
  | cons f fs ih =>
    simp only [List.all_cons]
    have hne : k ≠ f := fun hk => h (hk ▸ List.mem_cons_self f fs)
    rw [getD_setE_ne e k f v _ hne, ih (fun hm => h (List.mem_cons_of_mem f hm))]

theorem is_empty_setE_source (e : Entry) (v : PyVal) :
    Nmap.is_empty (setE e "source" v) = Nmap.is_empty e := by
  unfold Nmap.is_empty
  exact all_getD_setE_of_not_mem Nmap.get_important_fields e "source" v
    (fun w => Nmap.is_empty_vals.contains (pyStrip (pyStr w))) (by decide)

theorem all_pair_getD_setE_right (fields : List String) (a e : Entry) (k : String)
    (v : PyVal) (p : PyVal → PyVal → Bool) (h : k ∉ fields) :
    (fields.all fun f => p (getD a f (VStr "-")) (getD (setE e k v) f (VStr "-"))) =
      (fields.all fun f => p (getD a f (VStr "-")) (getD e f (VStr "-"))) := by
  induction fields with
  | nil => rfl
  | cons f fs ih =>
    simp only [List.all_cons]
    have hne : k ≠ f := fun hk => h (hk ▸ List.mem_cons_self f fs)
    rw [getD_setE_ne e k f v _ hne, ih (fun hm => h (List.mem_cons_of_mem f hm))]

theorem all_pair_getD_setE_left (fields : List String) (a e : Entry) (k : String)
    (v : PyVal) (p : PyVal → PyVal → Bool) (h : k ∉ fields) :
    (fields.all fun f => p (getD (setE a k v) f (VStr "-")) (getD e f (VStr "-"))) =
      (fields.all fun f => p (getD a f (VStr "-")) (getD e f (VStr "-"))) := by
  induction fields with
  | nil => rfl
  | cons f fs ih =>
    simp only [List.all_cons]
    have hne : k ≠ f := fun hk => h (hk ▸ List.mem_cons_self f fs)
    rw [getD_setE_ne a k f v _ hne, ih (fun hm => h (List.mem_cons_of_mem f hm))]

theorem identical_setE_source_right (a e : Entry) (v : PyVal) :
    Nmap.identical a (setE e "source" v) = Nmap.identical a e := by
  unfold Nmap.identical
  exact all_pair_getD_setE_right Nmap.get_important_fields a e "source" v
    (fun w1 w2 =>
      (Nmap.empty4.contains (pyStrip (pyStr w1))
          && Nmap.empty4.contains (pyStrip (pyStr w2)))
        || (pyStrip (pyStr w1) == pyStrip (pyStr w2))) (by decide)

theorem identical_setE_source_left (a e : Entry) (v : PyVal) :
    Nmap.identical (setE a "source" v) e = Nmap.identical a e := by
  unfold Nmap.identical
  exact all_pair_getD_setE_left Nmap.get_important_fields a e "source" v
    (fun w1 w2 =>
      (Nmap.empty4.contains (pyStrip (pyStr w1))
          && Nmap.empty4.contains (pyStrip (pyStr w2)))
        || (pyStrip (pyStr w1) == pyStrip (pyStr w2))) (by decide)

theorem identical_refl (e : Entry) : Nmap.identical e e = true := by
  unfold Nmap.identical
  refine List.all_eq_true.2 fun k _ => ?_
  simp

theorem srcStr_setE (e : Entry) (s : String) :
    Nmap.srcStr (setE e "source" (VStr s)) = s := by
  simp [Nmap.srcStr, getD_setE_eq, pyStr]

end NmapMergeLemmas

section SortLemmas

theorem lexLe_total (a b : List Char) : lexLe a b = true ∨ lexLe b a = true := by
  induction a generalizing b with
  | nil => left; rfl
  | cons x xs ih =>
    cases b with
    | nil => right; rfl
    | cons y ys =>
      by_cases h1 : x.toNat < y.toNat
      · left; simp [lexLe, h1]
      · by_cases h2 : y.toNat < x.toNat
        · right; simp [lexLe, h2]
        · rcases ih ys with h | h
          · left; simp [lexLe, h1, h2, h]
          · right; simp [lexLe, h1, h2, h]

theorem lexLe_trans (a b c : List Char) (hab : lexLe a b = true)
    (hbc : lexLe b c = true) : lexLe a c = true := by
  induction a generalizing b c with
  | nil => rfl
  | cons x xs ih =>
    cases b with
    | nil => simp [lexLe] at hab
    | cons y ys =>
      cases c with
      | nil => simp [lexLe] at hbc
      | cons z zs =>
        simp only [lexLe] at hab hbc ⊢
        by_cases hxy : x.toNat < y.toNat
        · by_cases hyz : y.toNat < z.toNat
          · simp [show x.toNat < z.toNat by omega]
          · by_cases hzy : z.toNat < y.toNat
            · simp [hyz, hzy] at hbc
            · simp [show x.toNat < z.toNat by omega]
        · by_cases hyx : y.toNat < x.toNat
          · simp [hxy, hyx] at hab
          · by_cases hyz : y.toNat < z.toNat
            · simp [show x.toNat < z.toNat by omega]
            · by_cases hzy : z.toNat < y.toNat
              · simp [hyz, hzy] at hbc
              · have hxz : ¬ x.toNat < z.toNat := by omega
                have hzx : ¬ z.toNat < x.toNat := by omega
                rw [if_neg hxy, if_neg hyx] at hab
                rw [if_neg hyz, if_neg hzy] at hbc
                rw [if_neg hxz, if_neg hzx]
                exact ih ys zs hab hbc

theorem lexLe_antisymm (a b : List Char) (hab : lexLe a b = true)
    (hba : lexLe b a = true) : a = b := by
  induction a generalizing b with
  | nil =>
    cases b with
    | nil => rfl
    | cons y ys => simp [lexLe] at hba
  | cons x xs ih =>
    cases b with
    | nil => simp [lexLe] at hab
    | cons y ys =>
      simp only [lexLe] at hab hba
      by_cases hxy : x.toNat < y.toNat
      · simp [show ¬ y.toNat < x.toNat by omega, hxy] at hba
      · by_cases hyx : y.toNat < x.toNat
        · simp [hxy, hyx] at hab
        · have hnat : x.toNat = y.toNat := by omega
          have hxx : x = y := Char.ext (UInt32.ext hnat)
          subst hxx
          rw [if_neg hxy, if_neg hyx] at hab hba
          exact congrArg (fun l => x :: l) (ih ys hab hba)

theorem strLe_total : ∀ a b : String, strLe a b = true ∨ strLe b a = true :=
  fun a b => lexLe_total a.data b.data

theorem strLe_trans : ∀ a b c : String,
    strLe a b = true → strLe b c = true → strLe a c = true :=
  fun a b c => lexLe_trans a.data b.data c.data

theorem strLe_antisymm : ∀ a b : String,
    strLe a b = true → strLe b a = true → a = b :=
  fun _ _ hab hba => String.ext (lexLe_antisymm _ _ hab hba)

instance strLeIsTotal : IsTotal String (fun a b => strLe a b = true) :=
  ⟨strLe_total⟩

instance strLeIsTrans : IsTrans String (fun a b => strLe a b = true) :=
  ⟨strLe_trans⟩

instance strLeIsAntisymm : IsAntisymm String (fun a b => strLe a b = true) :=
  ⟨strLe_antisymm⟩

/-- Sorting is insensitive to permutation of the input, since the comparison
    is a total antisymmetric order on strings. -/
theorem pySorted_perm_eq (l₁ l₂ : List String) (h : l₁.Perm l₂) :
    pySorted l₁ = pySorted l₂ := by
  refine List.eq_of_perm_of_sorted ?_ (List.sorted_insertionSort _ l₁)
    (List.sorted_insertionSort _ l₂)
  exact ((List.perm_insertionSort _ l₁).trans h).trans
    (List.perm_insertionSort _ l₂).symm

/-- Python sorted(set(a) | set(b)) does not depend on which side each label
    came from, so merge_sources is commutative. -/
theorem merge_sources_comm (a b : String) :
    Nmap.merge_sources a b = Nmap.merge_sources b a := by
  unfold Nmap.merge_sources
  refine congrArg (joinSep "+") (pySorted_perm_eq _ _ ?_)
  exact List.Perm.dedup (List.perm_append_comm)

end SortLemmas

section MergeStepLemmas

open PyVal

theorem mergeStep_nil (e : Entry) : Nmap.mergeStep [] e = [(Nmap.keyOf e, e)] := by
  simp [Nmap.mergeStep, Nmap.lookupK, Nmap.updateK]

theorem mergeStep_miss (m : Nmap.Merged) (e : Entry)
    (h : Nmap.lookupK m (Nmap.keyOf e) = none) :
    Nmap.mergeStep m e = Nmap.updateK m (Nmap.keyOf e) e := by
  unfold Nmap.mergeStep
  rw [h]

theorem mergeStep_hit_ident (m : Nmap.Merged) (entry ex : Entry)
    (hfind : Nmap.lookupK m (Nmap.keyOf entry) = some ex)
    (hid : Nmap.identical entry ex = true) :
    Nmap.mergeStep m entry =
      Nmap.updateK m (Nmap.keyOf entry) (Nmap.identMerge ex entry) := by
  unfold Nmap.mergeStep
  rw [hfind]
  simp [hid]

theorem mergeStep_hit_conflict (m : Nmap.Merged) (entry ex : Entry)
    (hfind : Nmap.lookupK m (Nmap.keyOf entry) = some ex)
    (hid : Nmap.identical entry ex = false) :
    Nmap.mergeStep m entry =
      Nmap.updateK m (Nmap.keyOf entry ++ [getD entry "source" VNone]) entry := by
  unfold Nmap.mergeStep
  rw [hfind]
  simp [hid]

theorem identMerge_no_concat (ex entry : Entry)
    (h : getD entry "script_output" VNone = getD ex "script_output" VNone) :
    Nmap.identMerge ex entry = Nmap.srcMerged ex entry := by
  unfold Nmap.identMerge Nmap.srcMerged
  rw [getD_setE_ne ex "source" "script_output" _ _ (by decide), h]
  simp

theorem key_ne_augmented (k : Nmap.MKey) (v : PyVal) : k ≠ k ++ [v] := by
  intro h
  have := congrArg List.length h
  simp at this

theorem merge_entries_pair (e1 e2 : Entry) (h1 : Nmap.is_empty e1 = false)
    (h2 : Nmap.is_empty e2 = false) :
    Nmap.merge_entries [[e1], [e2]] =
      (Nmap.mergeStep (Nmap.mergeStep [] e1) e2).map Prod.snd := by
  unfold Nmap.merge_entries
  simp [h1, h2]

end MergeStepLemmas

section ClaimC1

open PyVal

/-- C1: the claim is false as stated.  Two non-empty entries that agree on
    every important field up to the empty-equivalence rule (product is a dash
    in one and the empty string in the other) and carry source labels x and y
    merge, in either order, into one entry with source x+y, but the surviving
    entry is the first-seen one, so the two orders produce different merged
    entries. -/
theorem C1_counterexample :
    Nmap.merge_entries [[mkNE 80 "tcp" "open" "syn-ack" "http" "-" "-" "-" "-" "-" "x"],
        [mkNE 80 "tcp" "open" "syn-ack" "http" "" "-" "-" "-" "-" "y"]] ≠
      Nmap.merge_entries [[mkNE 80 "tcp" "open" "syn-ack" "http" "" "-" "-" "-" "-" "y"],
        [mkNE 80 "tcp" "open" "syn-ack" "http" "-" "-" "-" "-" "-" "x"]] ∧
    Nmap.identical (mkNE 80 "tcp" "open" "syn-ack" "http" "" "-" "-" "-" "-" "y")
        (mkNE 80 "tcp" "open" "syn-ack" "http" "-" "-" "-" "-" "-" "x") = true ∧
    Nmap.merge_entries [[mkNE 80 "tcp" "open" "syn-ack" "http" "-" "-" "-" "-" "-" "x"],
        [mkNE 80 "tcp" "open" "syn-ack" "http" "" "-" "-" "-" "-" "y"]] =
      [mkNE 80 "tcp" "open" "syn-ack" "http" "-" "-" "-" "-" "-" "x+y"] := by decide

/-- C1 (amended): for a capability that merges across variants (nmap), merging
    a non-empty entry carrying source x with the attribute-identical entry
    whose source is y produces, in either order, exactly one entry, namely the
    common entry with its source set to the sorted deduplicated plus-joined
    union of the two label sets; merge_sources itself is commutative. -/
theorem C1_attribute_identical_merge (e : Entry) (x y : String)
    (hx : getD e "source" VNone = VStr x)
    (hne : Nmap.is_empty e = false) :
    Nmap.merge_entries [[e], [setE e "source" (VStr y)]] =
        [setE e "source" (VStr (Nmap.merge_sources x y))] ∧
      Nmap.merge_entries [[setE e "source" (VStr y)], [e]] =
        [setE e "source" (VStr (Nmap.merge_sources x y))] ∧
      Nmap.merge_sources x y = Nmap.merge_sources y x := by
  have h2e : Nmap.is_empty (setE e "source" (VStr y)) = false := by
    rw [is_empty_setE_source]; exact hne
  have hsrcE : Nmap.srcStr e = x := by simp [Nmap.srcStr, hx, pyStr]
  have hk2 : Nmap.keyOf (setE e "source" (VStr y)) = Nmap.keyOf e :=
    keyOf_setE_source e _
  refine ⟨?_, ?_, merge_sources_comm x y⟩
  · rw [merge_entries_pair e _ hne h2e, mergeStep_nil]
    have hfind : Nmap.lookupK [(Nmap.keyOf e, e)]
        (Nmap.keyOf (setE e "source" (VStr y))) = some e := by
      rw [hk2]; simp [Nmap.lookupK]
    rw [mergeStep_hit_ident _ _ _ hfind
      (by rw [identical_setE_source_left]; exact identical_refl e)]
    rw [identMerge_no_concat _ _
      (by rw [getD_setE_ne e "source" "script_output" _ _ (by decide)])]
    unfold Nmap.srcMerged
    rw [hsrcE, srcStr_setE, hk2]
    simp [Nmap.updateK]
  · rw [merge_entries_pair _ e h2e hne, mergeStep_nil]
    have hfind : Nmap.lookupK
        [(Nmap.keyOf (setE e "source" (VStr y)), setE e "source" (VStr y))]
        (Nmap.keyOf e) = some (setE e "source" (VStr y)) := by
      rw [hk2]; simp [Nmap.lookupK]
    rw [mergeStep_hit_ident _ _ _ hfind
      (by rw [identical_setE_source_right]; exact identical_refl e)]
    rw [identMerge_no_concat _ _
      (by rw [getD_setE_ne e "source" "script_output" _ _ (by decide)])]
    unfold Nmap.srcMerged
    rw [srcStr_setE, hsrcE, setE_setE_same, merge_sources_comm y x, hk2]
    simp [Nmap.updateK]

/-- Witness for C1_attribute_identical_merge at a concrete nmap entry. -/
theorem C1_attribute_identical_merge_witness :
    getD (mkNE 80 "tcp" "open" "syn-ack" "http" "-" "-" "-" "-" "-" "ip")
        "source" VNone = VStr "ip" ∧
      Nmap.is_empty (mkNE 80 "tcp" "open" "syn-ack" "http" "-" "-" "-" "-" "-" "ip") = false ∧
      Nmap.merge_entries [[mkNE 80 "tcp" "open" "syn-ack" "http" "-" "-" "-" "-" "-" "ip"],
          [setE (mkNE 80 "tcp" "open" "syn-ack" "http" "-" "-" "-" "-" "-" "ip")
            "source" (VStr "domain_http")]] =
        [setE (mkNE 80 "tcp" "open" "syn-ack" "http" "-" "-" "-" "-" "-" "ip")
          "source" (VStr (Nmap.merge_sources "ip" "domain_http"))] :=
  ⟨by decide, by decide,
    (C1_attribute_identical_merge _ "ip" "domain_http" (by decide) (by decide)).1⟩

end ClaimC1

section ClaimC2

open PyVal

/-- C2: the claim is false as stated.  Three non-empty entries share a merge
    key; the second and third differ from the first (and from each other) in
    the important state field, and both carry source label s.  The third
    conflict overwrites the second at the same augmented key, so the pair
    consisting of the second and third entries does not survive as two
    records: the second entry is absent from the output and cardinality
    shrinks from three to two. -/
theorem C2_counterexample :
    Nmap.merge_entries [[mkNE 22 "tcp" "open" "syn-ack" "ssh" "-" "-" "-" "-" "-" "s",
        mkNE 22 "tcp" "filtered" "syn-ack" "ssh" "-" "-" "-" "-" "-" "s",
        mkNE 22 "tcp" "closed" "syn-ack" "ssh" "-" "-" "-" "-" "-" "s"]] =
      [mkNE 22 "tcp" "open" "syn-ack" "ssh" "-" "-" "-" "-" "-" "s",
       mkNE 22 "tcp" "closed" "syn-ack" "ssh" "-" "-" "-" "-" "-" "s"] ∧
    mkNE 22 "tcp" "filtered" "syn-ack" "ssh" "-" "-" "-" "-" "-" "s" ∉
      Nmap.merge_entries [[mkNE 22 "tcp" "open" "syn-ack" "ssh" "-" "-" "-" "-" "-" "s",
        mkNE 22 "tcp" "filtered" "syn-ack" "ssh" "-" "-" "-" "-" "-" "s",
        mkNE 22 "tcp" "closed" "syn-ack" "ssh" "-" "-" "-" "-" "-" "s"]] ∧
    Nmap.is_empty (mkNE 22 "tcp" "filtered" "syn-ack" "ssh" "-" "-" "-" "-" "-" "s") = false ∧
    Nmap.is_empty (mkNE 22 "tcp" "closed" "syn-ack" "ssh" "-" "-" "-" "-" "-" "s") = false ∧
    Nmap.keyOf (mkNE 22 "tcp" "filtered" "syn-ack" "ssh" "-" "-" "-" "-" "-" "s") =
      Nmap.keyOf (mkNE 22 "tcp" "closed" "syn-ack" "ssh" "-" "-" "-" "-" "-" "s") ∧
    Nmap.identical (mkNE 22 "tcp" "closed" "syn-ack" "ssh" "-" "-" "-" "-" "-" "s")
      (mkNE 22 "tcp" "filtered" "syn-ack" "ssh" "-" "-" "-" "-" "-" "s") = false := by
  decide

/-- C2 (amended): when exactly two non-empty entries share a merge key and
    differ in an important field outside the empty-equivalence classes, both
    survive as distinct records, the second stored under the original key
    augmented with its own source label; with more entries, a later conflict
    carrying the same source label as an earlier one overwrites it. -/
theorem C2_pair_conflict_kept (e1 e2 : Entry) (h1 : Nmap.is_empty e1 = false)
    (h2 : Nmap.is_empty e2 = false) (hk : Nmap.keyOf e2 = Nmap.keyOf e1)
    (hc : Nmap.identical e2 e1 = false) :
    Nmap.merge_entries [[e1], [e2]] = [e1, e2] ∧
      Nmap.mergeStep (Nmap.mergeStep [] e1) e2 =
        [(Nmap.keyOf e1, e1), (Nmap.keyOf e1 ++ [getD e2 "source" VNone], e2)] := by
  have hfind : Nmap.lookupK [(Nmap.keyOf e1, e1)] (Nmap.keyOf e2) = some e1 := by
    rw [hk]; simp [Nmap.lookupK]
  have hstep : Nmap.mergeStep (Nmap.mergeStep [] e1) e2 =
      [(Nmap.keyOf e1, e1), (Nmap.keyOf e1 ++ [getD e2 "source" VNone], e2)] := by
    rw [mergeStep_nil, mergeStep_hit_conflict _ _ _ hfind hc, hk]
    simp [Nmap.updateK, key_ne_augmented]
  exact ⟨by rw [merge_entries_pair e1 e2 h1 h2, hstep]; rfl, hstep⟩

/-- Witness for C2_pair_conflict_kept at a concrete conflicting pair. -/
theorem C2_pair_conflict_kept_witness :
    Nmap.is_empty (mkNE 22 "tcp" "open" "syn-ack" "ssh" "-" "-" "-" "-" "-" "ip") = false ∧
      Nmap.is_empty (mkNE 22 "tcp" "filtered" "rst" "ssh" "-" "-" "-" "-" "-" "domain_http") = false ∧
      Nmap.merge_entries
          [[mkNE 22 "tcp" "open" "syn-ack" "ssh" "-" "-" "-" "-" "-" "ip"],
           [mkNE 22 "tcp" "filtered" "rst" "ssh" "-" "-" "-" "-" "-" "domain_http"]] =
        [mkNE 22 "tcp" "open" "syn-ack" "ssh" "-" "-" "-" "-" "-" "ip",
         mkNE 22 "tcp" "filtered" "rst" "ssh" "-" "-" "-" "-" "-" "domain_http"] :=
  ⟨by decide, by decide,
    (C2_pair_conflict_kept _ _ (by decide) (by decide) (by decide) (by decide)).1⟩

end ClaimC2

section InvariantLemmas

open PyVal

theorem lookupK_append_left (a b : Nmap.Merged) (k : Nmap.MKey) (v : Entry)
    (h : Nmap.lookupK a k = some v) :
    Nmap.lookupK (a ++ b) k = some v := by
  induction a with
  | nil => simp [Nmap.lookupK] at h
  | cons p a ih =>
    obtain ⟨k', v'⟩ := p
    by_cases hp : k' = k
    · simpa [Nmap.lookupK, hp] using h
    · simp only [Nmap.lookupK, if_neg hp] at h
      simp only [List.cons_append, Nmap.lookupK, if_neg hp]
      exact ih h

theorem lookupK_append_right (a b : Nmap.Merged) (k : Nmap.MKey)
    (h : Nmap.lookupK a k = none) :
    Nmap.lookupK (a ++ b) k = Nmap.lookupK b k := by
  induction a with
  | nil => rfl
  | cons p a ih =>
    obtain ⟨k', v'⟩ := p
    by_cases hp : k' = k
    · simp [Nmap.lookupK, hp] at h
    · simp only [Nmap.lookupK, if_neg hp] at h
      simp only [List.cons_append, Nmap.lookupK, if_neg hp]
      exact ih h

theorem updateK_absent (m : Nmap.Merged) (k : Nmap.MKey) (v : Entry)
    (h : Nmap.lookupK m k = none) :
    Nmap.updateK m k v = m ++ [(k, v)] := by
  induction m with
  | nil => rfl
  | cons p m ih =>
    by_cases hp : p.1 = k
    · simp [Nmap.lookupK, hp] at h
    · simp only [Nmap.lookupK, hp, if_false] at h
      obtain ⟨k', v'⟩ := p
      simp only [Nmap.updateK, if_neg hp, List.cons_append]
      rw [ih h]

theorem keyOf_length (e : Entry) : (Nmap.keyOf e).length = 3 := rfl

theorem base_key_ne_augmented (a b : Entry) (x : PyVal) :
    Nmap.keyOf a ≠ Nmap.keyOf b ++ [x] := by
  intro h
  have := congrArg List.length h
  simp [keyOf_length] at this

theorem augmented_inj (a b : Entry) (x y : PyVal)
    (h : Nmap.keyOf a ++ [x] = Nmap.keyOf b ++ [y]) :
    Nmap.keyOf a = Nmap.keyOf b := by
  exact (List.append_inj h (by simp [keyOf_length])).1

/-- Shape of a looked-up pair: every stored value sits under its own base key
    or its own augmented key. -/
theorem InvFrom_lookup_shape (rest : Nmap.Merged) : ∀ (seen : Nmap.Merged)
    (k : Nmap.MKey) (b : Entry), Nmap.InvFrom seen rest →
    Nmap.lookupK rest k = some b →
    k = Nmap.keyOf b ∨ k = Nmap.keyOf b ++ [getD b "source" VNone] := by
  induction rest with
  | nil => intro seen k b _ h; simp [Nmap.lookupK] at h
  | cons p rest ih =>
    intro seen k b hInv hlk
    obtain ⟨k', e'⟩ := p
    obtain ⟨_, _, hdisj, htail⟩ := hInv
    by_cases hp : k' = k
    · simp only [Nmap.lookupK, if_pos hp] at hlk
      obtain rfl : e' = b := by injection hlk
      subst hp
      rcases hdisj with h | ⟨h, _⟩
      · exact Or.inl h
      · exact Or.inr h
    · simp only [Nmap.lookupK, if_neg hp] at hlk
      exact ih (seen ++ [(k', e')]) k b htail hlk

/-- Every value stored in a merged dict satisfying the invariant is
    non-empty. -/
theorem InvFrom_values_nonempty (rest : Nmap.Merged) : ∀ (seen : Nmap.Merged),
    Nmap.InvFrom seen rest →
    ∀ e ∈ rest.map Prod.snd, Nmap.is_empty e = false := by
  induction rest with
  | nil => intro seen _ e he; simp at he
  | cons p rest ih =>
    intro seen hInv e he
    obtain ⟨k', e'⟩ := p
    obtain ⟨_, hne, _, htail⟩ := hInv
    rcases List.mem_cons.mp he with h | h
    · exact h ▸ hne
    · exact ih (seen ++ [(k', e')]) htail e h

/-- Replay: folding the stored values of an invariant-satisfying merged dict
    back through mergeStep, starting from its prefix, reproduces the dict
    pair for pair. -/
theorem InvFrom_replay (rest : Nmap.Merged) : ∀ (seen : Nmap.Merged),
    Nmap.InvFrom seen rest →
    (rest.map Prod.snd).foldl Nmap.mergeStep seen = seen ++ rest := by
  induction rest with
  | nil => intro seen _; simp
  | cons p rest ih =>
    intro seen hInv
    obtain ⟨k, e⟩ := p
    obtain ⟨hfresh, _, hdisj, htail⟩ := hInv
    have hstep : Nmap.mergeStep seen e = seen ++ [(k, e)] := by
      rcases hdisj with hbase | ⟨hkey, b, hb, hcb⟩
      · subst hbase
        rw [mergeStep_miss seen e hfresh]
        exact updateK_absent seen _ e hfresh
      · subst hkey
        rw [mergeStep_hit_conflict seen e b hb hcb]
        exact updateK_absent seen _ e hfresh
    simp only [List.map_cons, List.foldl_cons, hstep]
    rw [ih (seen ++ [(k, e)]) htail, List.append_assoc]
    rfl

theorem lookupK_snoc (s : Nmap.Merged) (k k₁ : Nmap.MKey) (e : Entry) :
    Nmap.lookupK (s ++ [(k, e)]) k₁ =
      match Nmap.lookupK s k₁ with
      | some v => some v
      | none => if k = k₁ then some e else none := by
  cases h : Nmap.lookupK s k₁ with
  | some v => simp [lookupK_append_left s _ k₁ v h]
  | none => simp [lookupK_append_right s _ k₁ h, Nmap.lookupK]

theorem lookupK_snoc_none (s : Nmap.Merged) (k k₁ : Nmap.MKey) (e : Entry) :
    (Nmap.lookupK (s ++ [(k, e)]) k₁ = none) ↔
      (Nmap.lookupK s k₁ = none ∧ ¬ k = k₁) := by
  rw [lookupK_snoc]
  cases h : Nmap.lookupK s k₁ with
  | some v => simp
  | none => by_cases hk : k = k₁ <;> simp [hk]

/-- Appending a fresh pair whose entry is non-empty and whose key is its own
    base or augmented key preserves the invariant. -/
theorem InvFrom_snoc (rest : Nmap.Merged) : ∀ (seen : Nmap.Merged)
    (k : Nmap.MKey) (e : Entry),
    Nmap.InvFrom seen rest →
    Nmap.lookupK (seen ++ rest) k = none →
    Nmap.is_empty e = false →
    (k = Nmap.keyOf e ∨
      (k = Nmap.keyOf e ++ [getD e "source" VNone] ∧
        ∃ b, Nmap.lookupK (seen ++ rest) (Nmap.keyOf e) = some b ∧
          Nmap.identical e b = false)) →
    Nmap.InvFrom seen (rest ++ [(k, e)]) := by
  induction rest with
  | nil =>
    intro seen k e _ hfresh hne hdisj
    refine ⟨by simpa using hfresh, hne, by simpa using hdisj, trivial⟩
  | cons p rest ih =>
    intro seen k e hInv hfresh hne hdisj
    obtain ⟨k', e'⟩ := p
    obtain ⟨h1, h2, h3, h4⟩ := hInv
    refine ⟨h1, h2, h3, ?_⟩
    refine ih (seen ++ [(k', e')]) k e h4 ?_ hne ?_
    · rw [List.append_assoc]; simpa using hfresh
    · rw [List.append_assoc]; simpa using hdisj

/-- The invariant only inspects the prefix through lookups: replacing the
    prefix by one with the same key set whose values at base keys compare
    identically preserves it. -/
theorem InvFrom_seen_swap (rest : Nmap.Merged) : ∀ (seen seen' : Nmap.Merged),
    (∀ k : Nmap.MKey, Nmap.lookupK seen' k = none ↔ Nmap.lookupK seen k = none) →
    (∀ (k : Nmap.MKey) (b : Entry), k.length = 3 → Nmap.lookupK seen k = some b →
      ∃ b', Nmap.lookupK seen' k = some b' ∧
        ∀ a, Nmap.identical a b' = Nmap.identical a b) →
    Nmap.InvFrom seen rest → Nmap.InvFrom seen' rest := by
  induction rest with
  | nil => intro _ _ _ _ _; trivial
  | cons p rest ih =>
    intro seen seen' hnone hsome hInv
    obtain ⟨k, e⟩ := p
    obtain ⟨h1, h2, h3, h4⟩ := hInv
    refine ⟨(hnone k).mpr h1, h2, ?_, ?_⟩
    · rcases h3 with hb | ⟨hk, b, hlb, hib⟩
      · exact Or.inl hb
      · obtain ⟨b', hlb', hib'⟩ := hsome (Nmap.keyOf e) b (keyOf_length e) hlb
        exact Or.inr ⟨hk, b', hlb', by rw [hib' e]; exact hib⟩
    · refine ih (seen ++ [(k, e)]) (seen' ++ [(k, e)]) ?_ ?_ h4
      · intro k₁
        rw [lookupK_snoc_none, lookupK_snoc_none, hnone k₁]
      · intro k₁ b hlen hlk
        rw [lookupK_snoc] at hlk
        cases hs : Nmap.lookupK seen k₁ with
        | some v =>
          rw [hs] at hlk
          obtain rfl : v = b := by injection hlk
          obtain ⟨b', hlb', hib'⟩ := hsome k₁ v hlen hs
          exact ⟨b', lookupK_append_left seen' _ k₁ b' hlb', hib'⟩
        | none =>
          rw [hs] at hlk
          by_cases hk : k = k₁
          · simp only [if_pos hk] at hlk
            obtain rfl : e = b := by injection hlk
            refine ⟨e, ?_, fun a => rfl⟩
            rw [lookupK_snoc, (hnone k₁).mpr hs, if_pos hk]
          · simp [hk] at hlk

/-- Replacing the value stored at a base key by one with the same projected
    key, the same emptiness, and the same identical-comparison behaviour
    preserves the invariant. -/
theorem InvFrom_updIdent (rest : Nmap.Merged) : ∀ (seen : Nmap.Merged)
    (k₀ : Nmap.MKey) (ex u : Entry),
    Nmap.InvFrom seen rest →
    Nmap.lookupK seen k₀ = none →
    Nmap.lookupK rest k₀ = some ex →
    k₀ = Nmap.keyOf ex →
    Nmap.keyOf u = Nmap.keyOf ex →
    Nmap.is_empty u = Nmap.is_empty ex →
    (∀ a, Nmap.identical a u = Nmap.identical a ex) →
    Nmap.InvFrom seen (Nmap.updateK rest k₀ u) := by
  induction rest with
  | nil => intro seen k₀ ex u _ _ h; simp [Nmap.lookupK] at h
  | cons p rest ih =>
    intro seen k₀ ex u hInv hseen hlk hk0 hku hemp hidp
    obtain ⟨k', e'⟩ := p
    obtain ⟨h1, h2, h3, h4⟩ := hInv
    by_cases hp : k' = k₀
    · subst hp
      simp only [Nmap.lookupK, if_pos rfl] at hlk
      have hee : e' = ex := by injection hlk
      subst hee
      simp only [Nmap.updateK, if_pos rfl]
      refine ⟨h1, by rw [hemp]; exact h2, Or.inl (by rw [hku]; exact hk0), ?_⟩
      refine InvFrom_seen_swap rest (seen ++ [(k', e')]) (seen ++ [(k', u)]) ?_ ?_ h4
      · intro k₁
        rw [lookupK_snoc_none, lookupK_snoc_none]
      · intro k₁ b hlen hlk₁
        rw [lookupK_snoc] at hlk₁
        cases hs : Nmap.lookupK seen k₁ with
        | some v =>
          rw [hs] at hlk₁
          have hvb : v = b := by injection hlk₁
          exact ⟨b, lookupK_append_left seen _ k₁ b (hvb ▸ hs), fun a => rfl⟩
        | none =>
          rw [hs] at hlk₁
          by_cases hk : k' = k₁
          · simp only [if_pos hk] at hlk₁
            have heb : e' = b := by injection hlk₁
            refine ⟨u, ?_, fun a => by rw [hidp a, heb]⟩
            rw [lookupK_snoc, hs, if_pos hk]
          · simp [hk] at hlk₁
    · simp only [Nmap.lookupK, if_neg hp] at hlk
      simp only [Nmap.updateK, if_neg hp]
      refine ⟨h1, h2, h3, ?_⟩
      refine ih (seen ++ [(k', e')]) k₀ ex u h4 ?_ hlk hk0 hku hemp hidp
      rw [lookupK_snoc_none]
      exact ⟨hseen, hp⟩

/-- Overwriting the conflict pair stored at an augmented key by a new
    conflicting entry with the same augmented key preserves the invariant:
    the base it conflicts with is already in the prefix of that position. -/
theorem InvFrom_updConflict (rest : Nmap.Merged) : ∀ (seen : Nmap.Merged)
    (entry ex old : Entry),
    Nmap.InvFrom seen rest →
    Nmap.is_empty entry = false →
    Nmap.lookupK seen (Nmap.keyOf entry ++ [getD entry "source" VNone]) = none →
    Nmap.lookupK rest (Nmap.keyOf entry ++ [getD entry "source" VNone]) = some old →
    Nmap.lookupK (seen ++ rest) (Nmap.keyOf entry) = some ex →
    Nmap.identical entry ex = false →
    Nmap.InvFrom seen
      (Nmap.updateK rest (Nmap.keyOf entry ++ [getD entry "source" VNone]) entry) := by
  induction rest with
  | nil => intro seen entry ex old _ _ _ h _ _; simp [Nmap.lookupK] at h
  | cons p rest ih =>
    intro seen entry ex old hInv hne hseen hlk hex hconf
    obtain ⟨k', e'⟩ := p
    obtain ⟨h1, h2, h3, h4⟩ := hInv
    by_cases hp : k' = Nmap.keyOf entry ++ [getD entry "source" VNone]
    · subst hp
      simp only [Nmap.updateK, if_pos rfl]
      refine ⟨h1, hne, Or.inr ⟨rfl, ?_⟩, ?_⟩
      · rcases h3 with hb | ⟨hkk, b₀, hlb₀, _⟩
        · exact absurd hb.symm (base_key_ne_augmented e' entry _)
        · have hkeq : Nmap.keyOf entry = Nmap.keyOf e' := augmented_inj entry e' _ _ hkk
          have hlb₁ : Nmap.lookupK seen (Nmap.keyOf entry) = some b₀ := by
            rw [hkeq]; exact hlb₀
          have hwhole := lookupK_append_left seen ((Nmap.keyOf entry ++
            [getD entry "source" VNone], e') :: rest) (Nmap.keyOf entry) b₀ hlb₁
          rw [hex] at hwhole
          have hexb : ex = b₀ := by injection hwhole
          exact ⟨ex, by rw [hexb]; exact hlb₁, hconf⟩
      · refine InvFrom_seen_swap rest _ _ ?_ ?_ h4
        · intro k₁
          rw [lookupK_snoc_none, lookupK_snoc_none]
        · intro k₁ b hlen hlk₁
          rw [lookupK_snoc] at hlk₁
          cases hs : Nmap.lookupK seen k₁ with
          | some v =>
            rw [hs] at hlk₁
            have hvb : v = b := by injection hlk₁
            exact ⟨b, lookupK_append_left seen _ k₁ b (hvb ▸ hs), fun a => rfl⟩
          | none =>
            rw [hs] at hlk₁
            by_cases hk : Nmap.keyOf entry ++ [getD entry "source" VNone] = k₁
            · exfalso
              have h4len : k₁.length = 4 := by
                rw [← hk]; simp [keyOf_length]
              rw [h4len] at hlen
              exact absurd hlen (by decide)
            · simp [hk] at hlk₁
    · simp only [Nmap.lookupK, if_neg hp] at hlk
      simp only [Nmap.updateK, if_neg hp]
      refine ⟨h1, h2, h3, ?_⟩
      refine ih (seen ++ [(k', e')]) entry ex old h4 hne ?_ hlk ?_ hconf
      · rw [lookupK_snoc_none]
        exact ⟨hseen, hp⟩
      · rw [List.append_assoc]; simpa using hex

/-- When the concatenation condition (stated on the looked-up existing entry)
    is false, the identical branch stores back just the source update. -/
theorem identMerge_not_fire (ex entry : Entry)
    (h : (hasKey entry "script_output" && hasKey ex "script_output"
        && !(getD entry "script_output" VNone
              == getD ex "script_output" VNone)) = false) :
    Nmap.identMerge ex entry = Nmap.srcMerged ex entry := by
  unfold Nmap.identMerge
  rw [show hasKey (Nmap.srcMerged ex entry) "script_output" = hasKey ex "script_output" from
      hasKey_setE_ne ex "source" "script_output" _ (by decide),
    show getD (Nmap.srcMerged ex entry) "script_output" VNone =
        getD ex "script_output" VNone from
      getD_setE_ne ex "source" "script_output" _ _ (by decide), h]
  simp

/-- One concatenation-free merge step preserves the accumulator invariant. -/
theorem Inv_step (m : Nmap.Merged) (entry : Entry) (hm : Nmap.Inv m)
    (hne : Nmap.is_empty entry = false)
    (hfree : Nmap.concatFires m entry = false) :
    Nmap.Inv (Nmap.mergeStep m entry) := by
  cases hlk : Nmap.lookupK m (Nmap.keyOf entry) with
  | none =>
    rw [mergeStep_miss m entry hlk, updateK_absent m _ entry hlk]
    exact InvFrom_snoc m [] (Nmap.keyOf entry) entry hm hlk hne (Or.inl rfl)
  | some ex =>
    cases hid : Nmap.identical entry ex with
    | true =>
      rw [mergeStep_hit_ident m entry ex hlk hid]
      have hinner : (hasKey entry "script_output" && hasKey ex "script_output"
          && !(getD entry "script_output" VNone
                == getD ex "script_output" VNone)) = false := by
        have h := hfree
        unfold Nmap.concatFires at h
        rw [hlk] at h
        simpa [hid] using h
      rw [identMerge_not_fire ex entry hinner]
      have hshape := InvFrom_lookup_shape m [] (Nmap.keyOf entry) ex hm hlk
      have hk0 : Nmap.keyOf entry = Nmap.keyOf ex := by
        rcases hshape with h | h
        · exact h
        · exact absurd h (base_key_ne_augmented entry ex _)
      exact InvFrom_updIdent m [] (Nmap.keyOf entry) ex (Nmap.srcMerged ex entry)
        hm rfl hlk hk0 (keyOf_setE_source ex _) (is_empty_setE_source ex _)
        (fun a => identical_setE_source_right a ex _)
    | false =>
      rw [mergeStep_hit_conflict m entry ex hlk hid]
      cases hlk4 : Nmap.lookupK m (Nmap.keyOf entry ++ [getD entry "source" VNone]) with
      | none =>
        rw [updateK_absent m _ entry hlk4]
        exact InvFrom_snoc m [] _ entry hm hlk4 hne (Or.inr ⟨rfl, ex, hlk, hid⟩)
      | some old =>
        exact InvFrom_updConflict m [] entry ex old hm hne rfl hlk4 hlk hid

/-- A concatenation-free fold over non-empty entries preserves the
    invariant. -/
theorem fold_Inv (es : List Entry) : ∀ (m : Nmap.Merged), Nmap.Inv m →
    (∀ e ∈ es, Nmap.is_empty e = false) →
    Nmap.runConcatFree m es = true →
    Nmap.Inv (es.foldl Nmap.mergeStep m) := by
  induction es with
  | nil => intro m h _ _; simpa using h
  | cons e es ih =>
    intro m hm hall hfree
    simp only [Nmap.runConcatFree, Bool.and_eq_true, Bool.not_eq_true'] at hfree
    obtain ⟨hc, hrest⟩ := hfree
    simp only [List.foldl_cons]
    exact ih (Nmap.mergeStep m e)
      (Inv_step m e hm (hall e (List.mem_cons_self e es)) hc)
      (fun x hx => hall x (List.mem_cons_of_mem e hx)) hrest

theorem Inv_nil : Nmap.Inv [] := trivial

theorem flatFiltered_nonempty (L : List (List Entry)) :
    ∀ e ∈ Nmap.flatFiltered L, Nmap.is_empty e = false := by
  intro e he
  simp only [Nmap.flatFiltered, List.mem_flatMap] at he
  obtain ⟨l, _, hf⟩ := he
  have h2 := (List.mem_filter.mp hf).2
  simpa using h2

theorem merge_entries_def_fold (L : List (List Entry)) :
    Nmap.merge_entries L =
      ((Nmap.flatFiltered L).foldl Nmap.mergeStep []).map Prod.snd := rfl

end InvariantLemmas

section ClaimC3

open PyVal

/-- C3: the claim is false as stated.  Reconciliation is not idempotent: in
    the input below, the first and third entries merge and their differing
    script texts are re-normalized to exactly the text the second
    (conflicting) entry carries, so re-running merge_entries on the output
    collapses the former conflict into one entry. -/
theorem C3_counterexample :
    Nmap.merge_entries [Nmap.merge_entries
        [[mkNE 443 "tcp" "open" "syn-ack" "https" "-" "-" "-" "-" "TLSv1.2:\nTLS_AES" "a",
          mkNE 443 "tcp" "open" "syn-ack" "https" "-" "-" "-" "-" "[TLS Cipher Support]\n\nTLSv1.2\n- TLS_AES" "b",
          mkNE 443 "tcp" "open" "syn-ack" "https" "-" "-" "-" "-" "TLSv1.2:\nTLS_AES " "c"]]] ≠
      Nmap.merge_entries
        [[mkNE 443 "tcp" "open" "syn-ack" "https" "-" "-" "-" "-" "TLSv1.2:\nTLS_AES" "a",
          mkNE 443 "tcp" "open" "syn-ack" "https" "-" "-" "-" "-" "[TLS Cipher Support]\n\nTLSv1.2\n- TLS_AES" "b",
          mkNE 443 "tcp" "open" "syn-ack" "https" "-" "-" "-" "-" "TLSv1.2:\nTLS_AES " "c"]] := by
  decide

/-- C3 (amended): reconciliation is idempotent on every input on which the
    merge never fires the script_output concatenation branch: re-running
    merge_entries on its own output then reproduces it exactly, including
    entry order and source strings. -/
theorem C3_idempotent_without_renormalization (L : List (List Entry))
    (hfree : Nmap.runConcatFree [] (Nmap.flatFiltered L) = true) :
    Nmap.merge_entries [Nmap.merge_entries L] = Nmap.merge_entries L := by
  have hInv : Nmap.Inv ((Nmap.flatFiltered L).foldl Nmap.mergeStep []) :=
    fold_Inv (Nmap.flatFiltered L) [] Inv_nil (flatFiltered_nonempty L) hfree
  have hvals := InvFrom_values_nonempty _ [] hInv
  have hfilter : (((Nmap.flatFiltered L).foldl Nmap.mergeStep []).map Prod.snd).filter
      (fun e => !Nmap.is_empty e) =
        ((Nmap.flatFiltered L).foldl Nmap.mergeStep []).map Prod.snd :=
    List.filter_eq_self.mpr (fun a ha => by rw [hvals a ha]; rfl)
  calc Nmap.merge_entries [Nmap.merge_entries L]
      = (((((Nmap.flatFiltered L).foldl Nmap.mergeStep []).map Prod.snd).filter
          (fun e => !Nmap.is_empty e)).foldl Nmap.mergeStep []).map Prod.snd := by
        rw [merge_entries_def_fold, merge_entries_def_fold]
        simp [Nmap.flatFiltered]
    _ = ((((Nmap.flatFiltered L).foldl Nmap.mergeStep []).map Prod.snd).foldl
          Nmap.mergeStep []).map Prod.snd := by rw [hfilter]
    _ = ([] ++ (Nmap.flatFiltered L).foldl Nmap.mergeStep []).map Prod.snd := by
        rw [InvFrom_replay _ [] hInv]
    _ = Nmap.merge_entries L := by rw [merge_entries_def_fold]; rfl

/-- Witness for C3_idempotent_without_renormalization on a two-variant input
    with a genuine conflict (no script concatenation occurs). -/
theorem C3_idempotent_without_renormalization_witness :
    Nmap.runConcatFree [] (Nmap.flatFiltered
        [[mkNE 80 "tcp" "open" "syn-ack" "http" "-" "-" "-" "-" "-" "ip"],
         [mkNE 80 "tcp" "filtered" "rst" "http" "-" "-" "-" "-" "-" "domain_http"]]) = true ∧
      Nmap.merge_entries [Nmap.merge_entries
          [[mkNE 80 "tcp" "open" "syn-ack" "http" "-" "-" "-" "-" "-" "ip"],
           [mkNE 80 "tcp" "filtered" "rst" "http" "-" "-" "-" "-" "-" "domain_http"]]] =
        Nmap.merge_entries
          [[mkNE 80 "tcp" "open" "syn-ack" "http" "-" "-" "-" "-" "-" "ip"],
           [mkNE 80 "tcp" "filtered" "rst" "http" "-" "-" "-" "-" "-" "domain_http"]] :=
  ⟨by decide, C3_idempotent_without_renormalization _ (by decide)⟩

end ClaimC3

section ClaimC4

open PyVal

/-- C4: the claim is false as stated.  Two entries whose only informative
    field is the script text zero-newline-zero merge; the re-normalized
    concatenation collapses that text to the single character zero, which
    lies in the empty-equivalence set, so the reconciliation output contains
    an entry whose every important field is empty-equivalent. -/
theorem C4_counterexample :
    Nmap.merge_entries [[mkNE 0 "-" "-" "-" "-" "-" "-" "-" "-" "0\n0" "x"],
        [mkNE 0 "-" "-" "-" "-" "-" "-" "-" "-" "0\n0 " "y"]] =
      [mkNE 0 "-" "-" "-" "-" "-" "-" "-" "-" "0" "x+y"] ∧
    Nmap.is_empty (mkNE 0 "-" "-" "-" "-" "-" "-" "-" "-" "0" "x+y") = true := by
  decide

theorem isEmpty_false_of_ne_nil (fields : List String) (h : fields ≠ []) :
    fields.isEmpty = false := by
  cases fields with
  | nil => exact absurd rfl h
  | cons f fs => rfl

/-- C4 (amended): every all-empty input entry is dropped before merging
    (filtering the inputs is a no-op on the merge result), the collector
    never hands an entry failing is_meaningful_entry to persistence in either
    branch, and the meaningfulness filter is idempotent.  A merged output
    entry can itself become all-empty through script re-normalization, but
    the collector's filter still keeps it from persistence. -/
theorem C4_empty_entries_dropped :
    (∀ lists : List (List Entry),
      Nmap.merge_entries lists =
        Nmap.merge_entries (lists.map (fun l => l.filter (fun e => !Nmap.is_empty e)))) ∧
    (∀ (md : List Entry) (ip dom : String) (fields : List String) (e : Entry),
      fields ≠ [] → e ∈ Collector.mergedResults md ip dom fields →
        Collector.is_meaningful_entry e fields = true) ∧
    (∀ (files : List (String × List Entry)) (ip dom : String)
        (fields : List String) (e : Entry),
      fields ≠ [] → e ∈ Collector.fileResults files ip dom fields →
        Collector.is_meaningful_entry e fields = true) ∧
    (∀ (l : List Entry) (fields : List String),
      (l.filter (fun e => Collector.is_meaningful_entry e fields)).filter
          (fun e => Collector.is_meaningful_entry e fields) =
        l.filter (fun e => Collector.is_meaningful_entry e fields)) := by
  refine ⟨?_, ?_, ?_, ?_⟩
  · intro lists
    rw [merge_entries_def_fold, merge_entries_def_fold]
    have hff : ∀ l : List Entry,
        (l.filter (fun e => !Nmap.is_empty e)).filter (fun e => !Nmap.is_empty e) =
          l.filter (fun e => !Nmap.is_empty e) :=
      fun l => List.filter_eq_self.mpr (fun a ha => (List.mem_filter.mp ha).2)
    have hsame : Nmap.flatFiltered
        (lists.map (fun l => l.filter (fun e => !Nmap.is_empty e))) =
          Nmap.flatFiltered lists := by
      unfold Nmap.flatFiltered
      induction lists with
      | nil => rfl
      | cons l ls ih => simp only [List.map_cons, List.flatMap_cons, hff, ih]
    rw [hsame]
  · intro md ip dom fields e hf he
    have hie := isEmpty_false_of_ne_nil fields hf
    rcases List.mem_append.mp he with h | h
    · obtain ⟨d, _, hd⟩ := List.mem_filterMap.mp h
      rw [hie] at hd
      by_cases hm : Collector.is_meaningful_entry
          (setE d "target" (VStr (Collector.firstTarget ip dom d))) fields
      · rw [if_pos (by simp [hm])] at hd
        obtain rfl : setE d "target" (VStr (Collector.firstTarget ip dom d)) = e := by
          injection hd
        exact hm
      · rw [if_neg (by simp [hm])] at hd
        exact absurd hd (by simp)
    · obtain ⟨d, _, hd⟩ := List.mem_filterMap.mp h
      rw [hie] at hd
      by_cases hm : Collector.is_meaningful_entry
          (setE d "target" (VStr (Collector.secondTarget ip dom d))) fields
      · rw [if_pos (by simp [hm])] at hd
        obtain rfl : setE d "target" (VStr (Collector.secondTarget ip dom d)) = e := by
          injection hd
        exact hm
      · rw [if_neg (by simp [hm])] at hd
        exact absurd hd (by simp)
  · intro files ip dom fields e hf he
    have hie := isEmpty_false_of_ne_nil fields hf
    obtain ⟨f, _, hfm⟩ := List.mem_flatMap.mp he
    obtain ⟨d, _, hd⟩ := List.mem_filterMap.mp hfm
    rw [hie] at hd
    by_cases hm : Collector.is_meaningful_entry
        (setE d "target" (VStr (if f.1 = "IP" then ip else dom))) fields
    · rw [if_pos (by simp [hm])] at hd
      obtain rfl : setE d "target" (VStr (if f.1 = "IP" then ip else dom)) = e := by
        injection hd
      exact hm
    · rw [if_neg (by simp [hm])] at hd
      exact absurd hd (by simp)
  · intro l fields
    exact List.filter_eq_self.mpr (fun a ha => (List.mem_filter.mp ha).2)

/-- Witness for C4_empty_entries_dropped: a concrete meaningful merged entry
    passes the collector filter. -/
theorem C4_empty_entries_dropped_witness :
    Nmap.get_important_fields ≠ [] ∧
      setE (mkNE 80 "tcp" "open" "syn-ack" "http" "-" "-" "-" "-" "-" "IP")
          "target" (VStr "10.0.0.1") ∈
        Collector.mergedResults
          [mkNE 80 "tcp" "open" "syn-ack" "http" "-" "-" "-" "-" "-" "IP"]
          "10.0.0.1" "example.com" Nmap.get_important_fields ∧
      Collector.is_meaningful_entry
        (setE (mkNE 80 "tcp" "open" "syn-ack" "http" "-" "-" "-" "-" "-" "IP")
          "target" (VStr "10.0.0.1")) Nmap.get_important_fields = true :=
  ⟨by decide, by decide,
    C4_empty_entries_dropped.2.1
      [mkNE 80 "tcp" "open" "syn-ack" "http" "-" "-" "-" "-" "-" "IP"]
      "10.0.0.1" "example.com" Nmap.get_important_fields _ (by decide) (by decide)⟩

end ClaimC4

section ClaimC5

/-- Any raised task exception makes gather-without-return_exceptions fail. -/
theorem gatherStrict_error (rs : List (Except String String)) (err : String)
    (h : Except.error err ∈ rs) :
    ∃ msg, Invoke.gatherStrict rs = Except.error msg := by
  induction rs with
  | nil => simp at h
  | cons r rs ih =>
    cases r with
    | error e => exact ⟨e, rfl⟩
    | ok p =>
      have hmem : Except.error err ∈ rs := by
        rcases List.mem_cons.mp h with h1 | h1
        · exact absurd h1 (by simp)
        · exact h1
      obtain ⟨msg, hmsg⟩ := ih hmem
      refine ⟨msg, ?_⟩
      show (Invoke.gatherStrict rs).map (fun l => p :: l) = Except.error msg
      rw [hmsg]
      rfl

/-- C5: the claim is false as stated.  nmap's scan gathers without
    return_exceptions, so one failing variant discards the successful
    sibling's artifact record and propagates the exception; nikto's scan, by
    contrast, returns the surviving record. -/
theorem C5_counterexample :
    Invoke.nmapScanRecords [Except.ok "p1", Except.error "boom"] ["ip_tcp", "ip_udp"] =
      Except.error "boom" ∧
    Invoke.niktoScanRecords [Except.ok "p1", Except.error "boom"] ["ip_http", "ip_https"] =
      [("nikto", "p1", "ip_http")] := by
  exact ⟨rfl, rfl⟩

/-- C5 (amended): nikto's scan isolates per-variant failures (a failing task
    contributes nothing and every sibling's record is kept), while nmap's
    scan propagates the first failure and returns no records at all. -/
theorem C5_nikto_isolates_nmap_propagates :
    (∀ (rs1 rs2 : List (Except String String)) (ss1 ss2 : List String)
        (err s : String), rs1.length = ss1.length →
      Invoke.niktoScanRecords (rs1 ++ Except.error err :: rs2) (ss1 ++ s :: ss2) =
        Invoke.niktoScanRecords rs1 ss1 ++ Invoke.niktoScanRecords rs2 ss2) ∧
    (∀ (rs : List (Except String String)) (ss : List String) (err : String),
      Except.error err ∈ rs →
      ∃ msg, Invoke.nmapScanRecords rs ss = Except.error msg) := by
  constructor
  · intro rs1
    induction rs1 with
    | nil =>
      intro rs2 ss1 ss2 err s hlen
      cases ss1 with
      | nil => rfl
      | cons s1 ss1 => simp at hlen
    | cons r rs ih =>
      intro rs2 ss1 ss2 err s hlen
      cases ss1 with
      | nil => simp at hlen
      | cons s1 ss1 =>
        have hlen' : rs.length = ss1.length := by simpa using hlen
        cases r with
        | error e =>
          simp only [List.cons_append, Invoke.niktoScanRecords]
          exact ih rs2 ss1 ss2 err s hlen'
        | ok p =>
          simp only [List.cons_append, Invoke.niktoScanRecords]
          exact congrArg (fun l => ("nikto", p, s1) :: l) (ih rs2 ss1 ss2 err s hlen')
  · intro rs ss err h
    obtain ⟨msg, hmsg⟩ := gatherStrict_error rs err h
    refine ⟨msg, ?_⟩
    unfold Invoke.nmapScanRecords
    rw [hmsg]
    rfl

/-- Witness for C5_nikto_isolates_nmap_propagates at a concrete failing
    variant. -/
theorem C5_nikto_isolates_nmap_propagates_witness :
    ([Except.ok "p1"] : List (Except String String)).length =
        (["ip_http"] : List String).length ∧
      Invoke.niktoScanRecords ([Except.ok "p1"] ++ Except.error "boom" :: [])
          (["ip_http"] ++ "ip_https" :: []) =
        Invoke.niktoScanRecords [Except.ok "p1"] ["ip_http"] ++
          Invoke.niktoScanRecords [] [] ∧
      Except.error "boom" ∈ ([Except.ok "p1", Except.error "boom"] :
        List (Except String String)) ∧
      ∃ msg, Invoke.nmapScanRecords [Except.ok "p1", Except.error "boom"]
          ["ip_tcp", "ip_udp"] = Except.error msg :=
  ⟨rfl,
    C5_nikto_isolates_nmap_propagates.1 [Except.ok "p1"] [] ["ip_http"] []
      "boom" "ip_https" rfl,
    by simp,
    C5_nikto_isolates_nmap_propagates.2 [Except.ok "p1", Except.error "boom"]
      ["ip_tcp", "ip_udp"] "boom" (by simp)⟩

end ClaimC5

section ClaimC6

/-- C6: the claim is false as stated.  run_nmap returns the artifact path as
    a success on exit code zero even when the artifact file does not exist
    and has no content, and run_tool declares success from the exit code
    alone. -/
theorem C6_counterexample :
    Invoke.run_nmap ⟨0, "", false, "", false⟩ "out.xml" = Except.ok "out.xml" ∧
      Invoke.run_tool_declares_success ⟨0, "", false, "", false⟩ = true := by
  exact ⟨rfl, rfl⟩

/-- C6 (amended): only nikto's invocation verifies the artifact after a zero
    exit: a missing file and an empty file each produce their own failure,
    and both messages are distinct from the non-zero-exit failure message for
    every captured stderr. -/
theorem C6_nikto_verifies_artifact :
    (∀ (r : Invoke.ToolRun) (p : String), r.returncode = 0 → r.fileExists = false →
      Invoke.run_nikto r p = Except.error "Nikto не создал JSON-файл") ∧
    (∀ (r : Invoke.ToolRun) (p : String), r.returncode = 0 → r.fileExists = true →
      pyStrip r.content = "" →
      Invoke.run_nikto r p = Except.error "Nikto JSON-файл пустой (0 байт)") ∧
    (∀ st : String, ("Nikto не создал JSON-файл" : String) ≠
      "Nikto завершился с ошибкой: " ++ pyStrip st) ∧
    (∀ st : String, ("Nikto JSON-файл пустой (0 байт)" : String) ≠
      "Nikto завершился с ошибкой: " ++ pyStrip st) := by
  refine ⟨?_, ?_, ?_, ?_⟩
  · intro r p hrc hfe
    simp [Invoke.run_nikto, hrc, hfe]
  · intro r p hrc hfe hc
    simp [Invoke.run_nikto, hrc, hfe, hc]
  · intro st h
    have hd := congrArg (fun s => s.data.take 7) h
    simp only [String.data_append] at hd
    rw [List.take_append_of_le_length (by decide)] at hd
    exact absurd hd (by decide)
  · intro st h
    have hd := congrArg (fun s => s.data.take 7) h
    simp only [String.data_append] at hd
    rw [List.take_append_of_le_length (by decide)] at hd
    exact absurd hd (by decide)

/-- Witness for C6_nikto_verifies_artifact on a run that exits zero without
    writing the artifact. -/
theorem C6_nikto_verifies_artifact_witness :
    (⟨0, "", false, "", false⟩ : Invoke.ToolRun).returncode = 0 ∧
      (⟨0, "", false, "", false⟩ : Invoke.ToolRun).fileExists = false ∧
      Invoke.run_nikto ⟨0, "", false, "", false⟩ "out.json" =
        Except.error "Nikto не создал JSON-файл" :=
  ⟨rfl, rfl, C6_nikto_verifies_artifact.1 ⟨0, "", false, "", false⟩ "out.json" rfl rfl⟩

end ClaimC6

section ClaimC7

/-- C7: the claim is false as stated.  One variant's parse failure empties
    the whole capability's contribution: the sibling variant's successfully
    parsed entries (which would otherwise be persisted, as the second
    conjunct shows) are discarded too. -/
theorem C7_counterexample :
    Collector.pluginContribution true
        [("ip_tcp", Except.ok [mkNE 80 "tcp" "open" "syn-ack" "http" "-" "-" "-" "-" "-" "ip_tcp"]),
         ("domain_http", Except.error "boom")] "10.0.0.1" "example.com"
        Nmap.get_important_fields = [] ∧
      Collector.pluginContribution true
        [("ip_tcp", Except.ok [mkNE 80 "tcp" "open" "syn-ack" "http" "-" "-" "-" "-" "-" "ip_tcp"]),
         ("domain_http", Except.ok [])] "10.0.0.1" "example.com"
        Nmap.get_important_fields ≠ [] := by
  exact ⟨rfl, by decide⟩

/-- C7 (amended): a parse failure on any artifact of a capability discards
    every entry of that capability for the run (the try block wraps the whole
    per-plugin loop), while other capabilities' contributions are unaffected
    (the collector processes plugins independently and concatenates their
    results). -/
theorem C7_parse_failure_discards_capability :
    (∀ (hasM : Bool) (files : List (String × Except String (List Entry)))
        (ip dom : String) (fields : List String),
      files.any (fun f => Collector.isErr f.2) = true →
      Collector.pluginContribution hasM files ip dom fields = []) ∧
    (∀ (ps1 ps2 : List Collector.PluginData) (p : Collector.PluginData)
        (ip dom : String),
      Collector.runPlugins (ps1 ++ p :: ps2) ip dom =
        Collector.runPlugins ps1 ip dom ++
          (Collector.pluginContribution p.hasMergeFn p.files ip dom p.fields ++
            Collector.runPlugins ps2 ip dom)) := by
  constructor
  · intro hasM files ip dom fields h
    simp [Collector.pluginContribution, h]
  · intro ps1 ps2 p ip dom
    simp [Collector.runPlugins]

/-- Witness for C7_parse_failure_discards_capability at a concrete failing
    artifact. -/
theorem C7_parse_failure_discards_capability_witness :
    ([("ip_tcp", Except.ok [mkNE 80 "tcp" "open" "syn-ack" "http" "-" "-" "-" "-" "-" "ip_tcp"]),
      ("domain_http", Except.error "boom")] :
        List (String × Except String (List Entry))).any
        (fun f => Collector.isErr f.2) = true ∧
      Collector.pluginContribution true
        [("ip_tcp", Except.ok [mkNE 80 "tcp" "open" "syn-ack" "http" "-" "-" "-" "-" "-" "ip_tcp"]),
         ("domain_http", Except.error "boom")] "10.0.0.1" "example.com"
        Nmap.get_important_fields = [] :=
  ⟨by decide,
    C7_parse_failure_discards_capability.1 true
      [("ip_tcp", Except.ok [mkNE 80 "tcp" "open" "syn-ack" "http" "-" "-" "-" "-" "-" "ip_tcp"]),
       ("domain_http", Except.error "boom")] "10.0.0.1" "example.com"
      Nmap.get_important_fields (by decide)⟩

end ClaimC7

section ClaimC8

/-- C8: the claim is false as stated.  nuclei's parse stamps the wall-clock
    time into the record it returns: on an artifact holding one valid JSON
    line (the empty array), two invocations at different times produce
    different results, while a non-JSON line raises for the whole artifact,
    identically at every time. -/
theorem C8_counterexample :
    Nuclei.parse Nuclei.jsonLoadsAt ["[]"] "target.example" "2025-01-01 00:00:00" ≠
        Nuclei.parse Nuclei.jsonLoadsAt ["[]"] "target.example" "2025-01-02 00:00:00" ∧
      Nuclei.parse Nuclei.jsonLoadsAt ["x"] "target.example" "2025-01-01 00:00:00" =
        Except.error "Ошибка при парсинге JSON" := by
  refine ⟨?_, rfl⟩
  intro h
  rw [show Nuclei.parse Nuclei.jsonLoadsAt ["[]"] "target.example" "2025-01-01 00:00:00" =
        Except.ok [⟨"target.example", "nuclei", "high", ["[]"], "2025-01-01 00:00:00"⟩]
      from rfl,
    show Nuclei.parse Nuclei.jsonLoadsAt ["[]"] "target.example" "2025-01-02 00:00:00" =
        Except.ok [⟨"target.example", "nuclei", "high", ["[]"], "2025-01-02 00:00:00"⟩]
      from rfl] at h
  injection h with h1
  injection h1 with h2
  have h3 := congrArg Nuclei.Record.created_at h2
  exact absurd h3 (by decide)

/-- C8 (amended): nmap's and nikto's parse are functions of artifact content
    and source label alone, but nuclei's parse also reads the wall clock: a
    decode failure raises identically at every time, and on decodable content
    the result depends on the invocation time exactly through the created_at
    field, every other field being determined by the decode function, the
    content, and the configured target. -/
theorem C8_nuclei_pure_up_to_timestamp :
    ∀ {J : Type} (loads : String → Option J) (content_lines : List String)
      (target t t' : String),
      (Nuclei.parse loads content_lines target t).map (List.map Nuclei.eraseStamp) =
        (Nuclei.parse loads content_lines target t').map (List.map Nuclei.eraseStamp) := by
  intro J loads content_lines target t t'
  unfold Nuclei.parse
  cases h : Nuclei.decodeAll loads (content_lines.filter (fun l => pyStrip l ≠ "")) with
  | none => rfl
  | some entries =>
    by_cases he : entries.isEmpty = true
    · simp [he]
    · simp only [he, if_false, Bool.false_eq_true]
      rfl

end ClaimC8

section ClaimC9

open PyVal

theorem is_meaningful_setE_target (e : Entry) (v : PyVal) :
    Collector.is_meaningful_entry (setE e "target" v) Nmap.get_important_fields =
      Collector.is_meaningful_entry e Nmap.get_important_fields := by
  unfold Collector.is_meaningful_entry
  rw [all_getD_setE_of_not_mem Nmap.get_important_fields e "target" v
    (fun w => Collector.meaningful_vals.contains (pyStrip (pyStr w))) (by decide)]

theorem length_filterMap_ite {β : Type} (l : List Entry) (g : Entry → β)
    (c : Entry → Bool) :
    (l.filterMap (fun a => if c a then some (g a) else none)).length = l.countP c := by
  induction l with
  | nil => rfl
  | cons a l ih =>
    by_cases h : c a = true
    · simp [List.filterMap_cons, h, ih, List.countP_cons]
    · simp [List.filterMap_cons, h, ih, List.countP_cons]

/-- C9: with merge_entries available and more than one collected artifact,
    process_temp_files routes through the merged branch and appends every
    meaningful merged entry once per loop — twice in total — so the insertion
    loop writes each merged finding to the database twice. -/
theorem C9_merged_entries_collected_twice :
    (∀ (files : List (String × Except String (List Entry))) (ip dom : String),
      files.all (fun f => !Collector.isErr f.2) = true → 1 < files.length →
      Collector.pluginContribution true files ip dom Nmap.get_important_fields =
        Collector.mergedResults
          (Nmap.merge_entries (files.map (fun f => Collector.okEntries f.2)))
          ip dom Nmap.get_important_fields) ∧
    (∀ (md : List Entry) (ip dom : String),
      (Collector.mergedResults md ip dom Nmap.get_important_fields).length =
        2 * md.countP
          (fun d => Collector.is_meaningful_entry d Nmap.get_important_fields)) ∧
    (∀ (md : List Entry) (ip dom : String) (d : Entry), d ∈ md →
      Collector.is_meaningful_entry d Nmap.get_important_fields = true →
      setE d "target" (VStr (Collector.firstTarget ip dom d)) ∈
          Collector.mergedResults md ip dom Nmap.get_important_fields ∧
        setE d "target" (VStr (Collector.secondTarget ip dom d)) ∈
          Collector.mergedResults md ip dom Nmap.get_important_fields) := by
  refine ⟨?_, ?_, ?_⟩
  · intro files ip dom hall hlen
    have hany : files.any (fun f => Collector.isErr f.2) = false := by
      rw [List.any_eq_false]
      intro f hf
      have h := List.all_eq_true.mp hall f hf
      simp only [Bool.not_eq_true'] at h
      simp [h]
    simp [Collector.pluginContribution, hany, hlen]
  · intro md ip dom
    unfold Collector.mergedResults
    rw [List.length_append,
      length_filterMap_ite md
        (fun data => setE data "target" (VStr (Collector.firstTarget ip dom data)))
        (fun data => Nmap.get_important_fields.isEmpty || Collector.is_meaningful_entry
          (setE data "target" (VStr (Collector.firstTarget ip dom data)))
          Nmap.get_important_fields),
      length_filterMap_ite md
        (fun data => setE data "target" (VStr (Collector.secondTarget ip dom data)))
        (fun data => Nmap.get_important_fields.isEmpty || Collector.is_meaningful_entry
          (setE data "target" (VStr (Collector.secondTarget ip dom data)))
          Nmap.get_important_fields)]
    have hc1 : ∀ d : Entry,
        (Nmap.get_important_fields.isEmpty || Collector.is_meaningful_entry
          (setE d "target" (VStr (Collector.firstTarget ip dom d)))
          Nmap.get_important_fields) =
          Collector.is_meaningful_entry d Nmap.get_important_fields := by
      intro d
      rw [show Nmap.get_important_fields.isEmpty = false from rfl, Bool.false_or,
        is_meaningful_setE_target]
    have hc2 : ∀ d : Entry,
        (Nmap.get_important_fields.isEmpty || Collector.is_meaningful_entry
          (setE d "target" (VStr (Collector.secondTarget ip dom d)))
          Nmap.get_important_fields) =
          Collector.is_meaningful_entry d Nmap.get_important_fields := by
      intro d
      rw [show Nmap.get_important_fields.isEmpty = false from rfl, Bool.false_or,
        is_meaningful_setE_target]
    have hcnt1 : md.countP (fun data => Nmap.get_important_fields.isEmpty ||
        Collector.is_meaningful_entry
          (setE data "target" (VStr (Collector.firstTarget ip dom data)))
          Nmap.get_important_fields) =
        md.countP (fun d => Collector.is_meaningful_entry d Nmap.get_important_fields) :=
      List.countP_congr (fun d _ => by rw [hc1 d])
    have hcnt2 : md.countP (fun data => Nmap.get_important_fields.isEmpty ||
        Collector.is_meaningful_entry
          (setE data "target" (VStr (Collector.secondTarget ip dom data)))
          Nmap.get_important_fields) =
        md.countP (fun d => Collector.is_meaningful_entry d Nmap.get_important_fields) :=
      List.countP_congr (fun d _ => by rw [hc2 d])
    rw [hcnt1, hcnt2]
    omega
  · intro md ip dom d hd hm
    constructor
    · refine List.mem_append_left _ (List.mem_filterMap.mpr ⟨d, hd, ?_⟩)
      rw [if_pos (by simp [is_meaningful_setE_target, hm])]
    · refine List.mem_append_right _ (List.mem_filterMap.mpr ⟨d, hd, ?_⟩)
      rw [if_pos (by simp [is_meaningful_setE_target, hm])]

/-- Witness for C9_merged_entries_collected_twice on two successfully parsed
    artifacts. -/
theorem C9_merged_entries_collected_twice_witness :
    ([("ip_tcp", Except.ok [mkNE 80 "tcp" "open" "syn-ack" "http" "-" "-" "-" "-" "-" "ip_tcp"]),
      ("domain_http", Except.ok ([] : List Entry))] :
        List (String × Except String (List Entry))).all
        (fun f => !Collector.isErr f.2) = true ∧
      1 < ([("ip_tcp", Except.ok [mkNE 80 "tcp" "open" "syn-ack" "http" "-" "-" "-" "-" "-" "ip_tcp"]),
        ("domain_http", Except.ok ([] : List Entry))] :
          List (String × Except String (List Entry))).length ∧
      Collector.pluginContribution true
          [("ip_tcp", Except.ok [mkNE 80 "tcp" "open" "syn-ack" "http" "-" "-" "-" "-" "-" "ip_tcp"]),
           ("domain_http", Except.ok ([] : List Entry))] "10.0.0.1" "example.com"
          Nmap.get_important_fields =
        Collector.mergedResults
          (Nmap.merge_entries
            ([("ip_tcp", Except.ok [mkNE 80 "tcp" "open" "syn-ack" "http" "-" "-" "-" "-" "-" "ip_tcp"]),
              ("domain_http", Except.ok ([] : List Entry))].map
              (fun f => Collector.okEntries f.2)))
          "10.0.0.1" "example.com" Nmap.get_important_fields :=
  ⟨by decide, by decide,
    C9_merged_entries_collected_twice.1
      [("ip_tcp", Except.ok [mkNE 80 "tcp" "open" "syn-ack" "http" "-" "-" "-" "-" "-" "ip_tcp"]),
       ("domain_http", Except.ok ([] : List Entry))] "10.0.0.1" "example.com"
      (by decide) (by decide)⟩

end ClaimC9

section ClaimC10

/-- C10: the nmap normalizer reads only the first host element: parsing a
    root whose first host is h, however many further hosts follow, yields
    exactly the entries of a root containing h alone — every port of every
    later host is omitted. -/
theorem C10_first_host_only (classify : Entry → String) (lbl tagr txt : String)
    (attrs : List (String × String)) (pre : List Xml.El) (h : Xml.El)
    (rest : List Xml.El) (hpre : ∀ c ∈ pre, Xml.tag c ≠ "host")
    (hh : Xml.tag h = "host") :
    Nmap.parse classify (Xml.El.node tagr attrs txt (pre ++ h :: rest)) lbl =
      Nmap.parse classify (Xml.El.node tagr attrs txt [h]) lbl := by
  unfold Nmap.parse
  have hfind : Xml.findEl (Xml.El.node tagr attrs txt (pre ++ h :: rest)) "host" =
      some h := by
    show ((pre ++ h :: rest).find? fun c => Xml.tag c == "host") = some h
    rw [List.find?_append]
    have h1 : (pre.find? fun c => Xml.tag c == "host") = none := by
      rw [List.find?_eq_none]
      intro x hx
      simp [hpre x hx]
    rw [h1]
    simp [List.find?_cons, hh]
  have hfind2 : Xml.findEl (Xml.El.node tagr attrs txt [h]) "host" = some h := by
    simp [Xml.findEl, Xml.children, List.find?_cons, hh]
  rw [hfind, hfind2]

/-- Witness for C10_first_host_only: a two-host artifact parses to exactly
    the entries of its first host; the second host's port never appears. -/
theorem C10_first_host_only_witness :
    (∀ c ∈ ([] : List Xml.El), Xml.tag c ≠ "host") ∧
      Xml.tag (Xml.El.node "host" [] ""
        [Xml.El.node "ports" [] ""
          [Xml.El.node "port" [("portid", "80"), ("protocol", "tcp")] "" []]]) = "host" ∧
      Nmap.parse (fun _ => "info")
          (Xml.El.node "nmaprun" [] ""
            ([] ++ Xml.El.node "host" [] ""
              [Xml.El.node "ports" [] ""
                [Xml.El.node "port" [("portid", "80"), ("protocol", "tcp")] "" []]] ::
              [Xml.El.node "host" [] ""
                [Xml.El.node "ports" [] ""
                  [Xml.El.node "port" [("portid", "443"), ("protocol", "tcp")] "" []]]]))
          "ip_tcp" =
        Nmap.parse (fun _ => "info")
          (Xml.El.node "nmaprun" [] ""
            [Xml.El.node "host" [] ""
              [Xml.El.node "ports" [] ""
                [Xml.El.node "port" [("portid", "80"), ("protocol", "tcp")] "" []]]])
          "ip_tcp" :=
  ⟨fun c hc => absurd hc (List.not_mem_nil c), rfl,
    C10_first_host_only (fun _ => "info") "ip_tcp" "nmaprun" "" [] []
      (Xml.El.node "host" [] ""
        [Xml.El.node "ports" [] ""
          [Xml.El.node "port" [("portid", "80"), ("protocol", "tcp")] "" []]])
      [Xml.El.node "host" [] ""
        [Xml.El.node "ports" [] ""
          [Xml.El.node "port" [("portid", "443"), ("protocol", "tcp")] "" []]]]
      (fun c hc => absurd hc (List.not_mem_nil c)) rfl⟩

end ClaimC10
